import Mathlib

/-!
Verification of the multi-asset order splitter.

The development shallowly embeds the core of the system in Lean:
* the allocation-splitting engine (`prepareOrderData`, `validatePortfolio`,
  `calculateAssetOrders` from `services/order.service`),
* the utility rounding function (`roundToDecimal` from `utils/helpers`),
* the in-memory order repository (`repositories/order.repository`),
* the trading-calendar service (`services/market.service`).

JavaScript numbers are modelled as rationals (ℚ); `Math.round x` is
`⌊x + 1/2⌋`, which agrees with the JavaScript semantics (halves round
toward positive infinity).  JavaScript `Map`s and `Set`s are modelled as
insertion-ordered association lists and duplicate-free lists, matching
their iteration-order guarantees.  Fallible operations return `Except`.
-/

/-- `roundToDecimal` from `utils/helpers`:
`Math.round(value * 10^decimals) / 10^decimals`. -/
def roundToDecimal (value : ℚ) (decimals : Nat) : ℚ :=
  let multiplier : ℚ := 10 ^ decimals
  (⌊value * multiplier + 1 / 2⌋ : ℚ) / multiplier

/-- Order side (`ORDER_TYPES`). -/
inductive Side where
  | BUY
  | SELL
deriving DecidableEq, Repr

/-- A portfolio asset as supplied in a create-order request.  Optional
fields model absent (`undefined`) JavaScript properties. -/
structure RequestAsset where
  symbol : String
  type? : Option String
  allocation : Option ℚ
  amount : Option ℚ
  price : Option ℚ
deriving DecidableEq, Repr

/-- One computed asset order line (element of `assetOrders`). -/
structure AssetOrder where
  symbol : String
  type? : Option String
  allocation : ℚ
  price : ℚ
  amount : ℚ
  shares : ℚ
  totalCost : ℚ
deriving DecidableEq, Repr

/-- Structured detail carried by an `InvalidPortfolioError`. -/
inductive PortfolioErrorDetail where
  | zeroAllocationSymbols (symbols : List String)
  | totalAllocationOff (totalAllocation : ℚ)
  | invalidConfig
deriving DecidableEq, Repr

/-- Failures of the splitting engine.  `typeErr` models the JavaScript
runtime `TypeError` raised when `assets[0]` is read from an empty array. -/
inductive SplitError where
  | invalidPortfolio (detail : PortfolioErrorDetail)
  | typeErr
deriving DecidableEq, Repr

/-- Order-splitting mode. -/
inductive Mode where
  | allocation
  | amount
deriving DecidableEq, Repr

/-- A create-order request after schema parsing (`CreateOrderInput`),
with the portfolio flattened to its asset list. -/
structure OrderRequest where
  orderType : Side
  amount : Option ℚ
  assets : List RequestAsset
deriving DecidableEq, Repr

/-- Result of `OrderService.prepareOrderData`. -/
structure PreparedData where
  mode : Mode
  totalAmount : ℚ
  normalizedAssets : List RequestAsset
deriving DecidableEq, Repr

/-- Amount-mode total: `assets.reduce((sum, a) => sum + (a.amount || 0), 0)`. -/
def amountModeTotal (assets : List RequestAsset) : ℚ :=
  assets.foldl (fun sum asset => sum + asset.amount.getD 0) 0

/-- Amount-mode normalization: each asset gets
`allocation = roundToDecimal((a.amount || 0) / totalAmount * 100, 2)` and
keeps symbol, type and price; the `amount` field is not carried over. -/
def amountModeNormalize (assets : List RequestAsset) : List RequestAsset :=
  let totalAmount := amountModeTotal assets
  assets.map (fun asset =>
    { symbol := asset.symbol
      type? := asset.type?
      allocation := some (roundToDecimal (asset.amount.getD 0 / totalAmount * 100) 2)
      amount := none
      price := asset.price })

/-- `OrderService.prepareOrderData`: mode detection inspects the first
asset; allocation mode needs `firstAsset.allocation !== undefined` and
`request.amount !== undefined`, otherwise amount mode needs
`firstAsset.amount !== undefined`, otherwise `InvalidPortfolioError`. -/
def prepareOrderData (request : OrderRequest) : Except SplitError PreparedData :=
  match request.assets with
  | [] => .error .typeErr
  | firstAsset :: _ =>
    match firstAsset.allocation, request.amount with
    | some _, some t => .ok ⟨.allocation, t, request.assets⟩
    | _, _ =>
      match firstAsset.amount with
      | some _ =>
        .ok ⟨.amount, amountModeTotal request.assets, amountModeNormalize request.assets⟩
      | none => .error (.invalidPortfolio .invalidConfig)

/-- Sum of allocations: `assets.reduce((s, a) => s + (a.allocation || 0), 0)`. -/
def sumAllocations (assets : List RequestAsset) : ℚ :=
  assets.foldl (fun sum asset => sum + asset.allocation.getD 0) 0

/-- `OrderService.validatePortfolio`: reject any strict-equality-zero
allocation (surfacing the offending symbols), then reject when the
allocation sum deviates from 100 by more than the 0.01 tolerance. -/
def validatePortfolio (assets : List RequestAsset) : Except SplitError Unit :=
  let zeroAllocations := assets.filter (fun a => decide (a.allocation = some 0))
  if zeroAllocations.length > 0 then
    .error (.invalidPortfolio (.zeroAllocationSymbols (zeroAllocations.map (fun a => a.symbol))))
  else
    let totalAllocation := sumAllocations assets
    if |totalAllocation - 100| > 1 / 100 then
      .error (.invalidPortfolio (.totalAllocationOff totalAllocation))
    else
      .ok ()

/-- `ORDER_CONFIG.DEFAULT_ASSET_PRICE`. -/
def defaultAssetPrice : ℚ := 100

/-- `asset.price || ORDER_CONFIG.DEFAULT_ASSET_PRICE` (a price of 0 is
falsy in JavaScript and also falls back to the default). -/
def resolvePrice (price : Option ℚ) : ℚ :=
  match price with
  | some p => if p = 0 then defaultAssetPrice else p
  | none => defaultAssetPrice

/-- Loop body of `OrderService.calculateAssetOrders`, with the running
`allocatedAmount` accumulator made explicit.  The last asset (empty
`rest`) receives `totalAmount - allocatedAmount`; every other asset
receives `roundToDecimal(allocation / 100 * totalAmount, 2)`. -/
def calculateAssetOrdersAux :
    List RequestAsset → ℚ → ℚ → Nat → List AssetOrder
  | [], _, _, _ => []
  | asset :: rest, totalAmount, allocatedAmount, decimalPrecision =>
    let price := resolvePrice asset.price
    let allocation := asset.allocation.getD 0
    let amount :=
      if rest.isEmpty then totalAmount - allocatedAmount
      else roundToDecimal (allocation / 100 * totalAmount) 2
    let shares := roundToDecimal (amount / price) decimalPrecision
    let totalCost := roundToDecimal (shares * price) 2
    ⟨asset.symbol, asset.type?, allocation, price, amount, shares, totalCost⟩ ::
      calculateAssetOrdersAux rest totalAmount (allocatedAmount + amount) decimalPrecision

/-- `OrderService.calculateAssetOrders` (accumulator starts at 0). -/
def calculateAssetOrders (assets : List RequestAsset) (totalAmount : ℚ)
    (decimalPrecision : Nat) : List AssetOrder :=
  calculateAssetOrdersAux assets totalAmount 0 decimalPrecision

/-- Specification-side per-asset dollar amounts, written from the spec:
every asset except the last gets `round2(allocationPercent/100 × total)`,
and the last asset gets the total minus the sum of the prior amounts. -/
def specAllocationAmounts (assets : List RequestAsset) (totalAmount : ℚ) : List ℚ :=
  match assets with
  | [] => []
  | _ =>
    let priorAmounts := assets.dropLast.map
      (fun a => roundToDecimal (a.allocation.getD 0 / 100 * totalAmount) 2)
    priorAmounts ++ [totalAmount - priorAmounts.sum]

theorem calcAux_cons₂ (a b : RequestAsset) (rest : List RequestAsset)
    (total alloc : ℚ) (prec : Nat) :
    calculateAssetOrdersAux (a :: b :: rest) total alloc prec =
      ⟨a.symbol, a.type?, a.allocation.getD 0, resolvePrice a.price,
        roundToDecimal (a.allocation.getD 0 / 100 * total) 2,
        roundToDecimal (roundToDecimal (a.allocation.getD 0 / 100 * total) 2 /
          resolvePrice a.price) prec,
        roundToDecimal (roundToDecimal (roundToDecimal (a.allocation.getD 0 / 100 * total) 2 /
          resolvePrice a.price) prec * resolvePrice a.price) 2⟩ ::
      calculateAssetOrdersAux (b :: rest) total
        (alloc + roundToDecimal (a.allocation.getD 0 / 100 * total) 2) prec := rfl

theorem calcAux_map_amount :
    ∀ (assets : List RequestAsset) (total alloc : ℚ) (prec : Nat), assets ≠ [] →
      (calculateAssetOrdersAux assets total alloc prec).map (fun o => o.amount) =
        (assets.dropLast.map
            (fun a => roundToDecimal (a.allocation.getD 0 / 100 * total) 2)) ++
          [total - alloc -
            ((assets.dropLast.map
                (fun a => roundToDecimal (a.allocation.getD 0 / 100 * total) 2)).sum)]
  | [], _, _, _, h => absurd rfl h
  | [_], total, alloc, prec, _ => by
      simp [calculateAssetOrdersAux]
  | a :: b :: rest, total, alloc, prec, _ => by
      have ih := calcAux_map_amount (b :: rest) total
        (alloc + roundToDecimal (a.allocation.getD 0 / 100 * total) 2) prec (by simp)
      rw [calcAux_cons₂, List.map_cons, ih, List.dropLast_cons₂, List.map_cons, List.sum_cons,
        List.cons_append]
      simp only [List.cons.injEq, List.append_cancel_left_eq, and_true, true_and]
      ring

theorem calcOrders_sum_amount (assets : List RequestAsset) (total : ℚ) (prec : Nat)
    (h : assets ≠ []) :
    ((calculateAssetOrders assets total prec).map (fun o => o.amount)).sum = total := by
  rw [calculateAssetOrders, calcAux_map_amount assets total 0 prec h]
  rw [List.sum_append, List.sum_cons, List.sum_nil]
  ring

theorem calcOrders_amounts_spec (assets : List RequestAsset) (total : ℚ) (prec : Nat)
    (h : assets ≠ []) :
    (calculateAssetOrders assets total prec).map (fun o => o.amount) =
      specAllocationAmounts assets total := by
  rw [calculateAssetOrders, calcAux_map_amount assets total 0 prec h]
  cases assets with
  | nil => exact absurd rfl h
  | cons a rest => simp [specAllocationAmounts]

/-- Claim C1: for every valid allocation-mode request (nonempty assets with
positive allocations summing to 100 within the 0.01 tolerance, positive
total), the per-line dollar amounts sum to the requested total exactly,
and they are exactly the spec amounts: `round2(allocationPercent/100 ×
total)` for every asset but the last, the last (by input position)
receiving the total minus the sum of the prior amounts. -/
theorem allocation_mode_sum_reconciles (assets : List RequestAsset)
    (totalAmount : ℚ) (decimalPrecision : Nat)
    (hne : assets ≠ [])
    (hpos : ∀ a ∈ assets, 0 < a.allocation.getD 0)
    (hsum : |sumAllocations assets - 100| ≤ 1 / 100)
    (htotal : 0 < totalAmount) :
    ((calculateAssetOrders assets totalAmount decimalPrecision).map
        (fun o => o.amount)).sum = totalAmount ∧
      (calculateAssetOrders assets totalAmount decimalPrecision).map
        (fun o => o.amount) = specAllocationAmounts assets totalAmount :=
  ⟨calcOrders_sum_amount assets totalAmount decimalPrecision hne,
    calcOrders_amounts_spec assets totalAmount decimalPrecision hne⟩

/-- Concrete two-asset allocation portfolio used to witness C1. -/
def c1WitnessAssets : List RequestAsset :=
  [⟨"AAPL", none, some 40, none, none⟩, ⟨"SPY", none, some 60, none, none⟩]

theorem allocation_mode_sum_reconciles_witness :
    ((calculateAssetOrders c1WitnessAssets 1000 3).map (fun o => o.amount)).sum = 1000 ∧
      (calculateAssetOrders c1WitnessAssets 1000 3).map (fun o => o.amount) =
        specAllocationAmounts c1WitnessAssets 1000 :=
  allocation_mode_sum_reconciles c1WitnessAssets 1000 3 (by simp [c1WitnessAssets])
    (by norm_num [c1WitnessAssets]) (by norm_num [sumAllocations, c1WitnessAssets])
    (by norm_num)

/-- Scenario B portfolio: allocations 60 and 30 (sum 90). -/
def scenarioBAssets : List RequestAsset :=
  [⟨"AAA", none, some 60, none, none⟩, ⟨"BBB", none, some 30, none, none⟩]

/-- Claim C5: `validatePortfolio` fails with `InvalidPortfolio` surfacing the
offending symbols whenever some allocation equals 0; otherwise it fails with
`InvalidPortfolio` whenever the allocation sum deviates from 100 by more than
0.01; otherwise it raises no failure.  Scenario B (60 + 30 = 90) fails. -/
theorem validatePortfolio_characterization :
    (∀ assets : List RequestAsset,
      ((∃ a ∈ assets, a.allocation = some 0) →
        validatePortfolio assets = .error (.invalidPortfolio (.zeroAllocationSymbols
          ((assets.filter (fun a => decide (a.allocation = some 0))).map
            (fun a => a.symbol))))) ∧
      ((¬ ∃ a ∈ assets, a.allocation = some 0) →
        |sumAllocations assets - 100| > 1 / 100 →
        validatePortfolio assets =
          .error (.invalidPortfolio (.totalAllocationOff (sumAllocations assets)))) ∧
      ((¬ ∃ a ∈ assets, a.allocation = some 0) →
        |sumAllocations assets - 100| ≤ 1 / 100 →
        validatePortfolio assets = .ok ())) ∧
    validatePortfolio scenarioBAssets =
      .error (.invalidPortfolio (.totalAllocationOff 90)) := by
  refine ⟨fun assets => ⟨?_, ?_, ?_⟩,
    by norm_num [validatePortfolio, scenarioBAssets, sumAllocations]⟩
  · intro hzero
    have hne : assets.filter (fun a => decide (a.allocation = some 0)) ≠ [] := by
      obtain ⟨a, ha, h0⟩ := hzero
      intro hnil
      have : a ∈ assets.filter (fun a => decide (a.allocation = some 0)) :=
        List.mem_filter.2 ⟨ha, by simp [h0]⟩
      simp [hnil] at this
    have hlen : (assets.filter (fun a => decide (a.allocation = some 0))).length > 0 :=
      List.length_pos.2 hne
    simp only [validatePortfolio, if_pos hlen]
  · intro hzero hsum
    have hnil : assets.filter (fun a => decide (a.allocation = some 0)) = [] := by
      rw [List.filter_eq_nil_iff]
      intro a ha
      simp only [decide_eq_true_eq]
      exact fun h0 => hzero ⟨a, ha, h0⟩
    simp only [validatePortfolio, hnil, List.length_nil, gt_iff_lt, lt_self_iff_false,
      if_false, if_pos hsum]
  · intro hzero hsum
    have hnil : assets.filter (fun a => decide (a.allocation = some 0)) = [] := by
      rw [List.filter_eq_nil_iff]
      intro a ha
      simp only [decide_eq_true_eq]
      exact fun h0 => hzero ⟨a, ha, h0⟩
    have : ¬ (|sumAllocations assets - 100| > 1 / 100) := not_lt.2 hsum
    simp only [validatePortfolio, hnil, List.length_nil, gt_iff_lt, lt_self_iff_false,
      if_false, if_neg this]

theorem validatePortfolio_characterization_witness :
    validatePortfolio c1WitnessAssets = .ok () :=
  (validatePortfolio_characterization.1 c1WitnessAssets).2.2
    (by norm_num [c1WitnessAssets]) (by norm_num [sumAllocations, c1WitnessAssets])

/-- Scenario A portfolio: AAPL 40, BTC 30 at price 45000, GOLD 20 at
price 2000, SPY 10; default price 100 applies to AAPL and SPY. -/
def scenarioAAssets : List RequestAsset :=
  [⟨"AAPL", none, some 40, none, none⟩,
   ⟨"BTC", none, some 30, none, some 45000⟩,
   ⟨"GOLD", none, some 20, none, some 2000⟩,
   ⟨"SPY", none, some 10, none, none⟩]

/-- Claim C4 counterexample: in Scenario A the per-line costs sum to 10015,
which deviates from the requested 10000 by 15 — far beyond the 0.01
tolerance claimed for the cost reconciliation. -/
theorem scenarioA_cost_sum_counterexample :
    ((calculateAssetOrders scenarioAAssets 10000 3).map (fun o => o.totalCost)).sum = 10015 ∧
      ¬ (|(10000 : ℚ) -
          ((calculateAssetOrders scenarioAAssets 10000 3).map (fun o => o.totalCost)).sum| ≤
            1 / 100) := by
  constructor
  · norm_num [calculateAssetOrders, calculateAssetOrdersAux, roundToDecimal,
      resolvePrice, defaultAssetPrice, scenarioAAssets]
  · norm_num [calculateAssetOrders, calculateAssetOrdersAux, roundToDecimal,
      resolvePrice, defaultAssetPrice, scenarioAAssets]

/-- Claim C4 (amended): Scenario A produces exactly the claimed lines —
AAPL 40.000 units costing 4000.00, BTC 0.067 units costing 3015.00, GOLD
1.000 unit costing 2000.00, SPY 10.000 units costing 1000.00 — and the
per-line dollar amounts sum to 10000 exactly, but the per-line costs sum
to 10015, exceeding the 0.01 reconciliation tolerance (the code logs a
reconciliation warning in this case rather than failing). -/
theorem scenarioA_amended :
    calculateAssetOrders scenarioAAssets 10000 3 =
      [⟨"AAPL", none, 40, 100, 4000, 40, 4000⟩,
       ⟨"BTC", none, 30, 45000, 3000, 67 / 1000, 3015⟩,
       ⟨"GOLD", none, 20, 2000, 2000, 1, 2000⟩,
       ⟨"SPY", none, 10, 100, 1000, 10, 1000⟩] ∧
      ((calculateAssetOrders scenarioAAssets 10000 3).map (fun o => o.amount)).sum = 10000 ∧
      ((calculateAssetOrders scenarioAAssets 10000 3).map (fun o => o.totalCost)).sum = 10015 ∧
      |(10000 : ℚ) - 10015| > 1 / 100 := by
  refine ⟨?_, ?_, ?_, by norm_num⟩ <;>
    norm_num [calculateAssetOrders, calculateAssetOrdersAux, roundToDecimal,
      resolvePrice, defaultAssetPrice, scenarioAAssets]

/-- Request with amount-based assets AND a supplied total: the engine
accepts it in amount mode instead of failing, refuting the claimed
"any other combination fails InvalidPortfolio". -/
def c2CexRequest : OrderRequest :=
  ⟨Side.BUY, some 500, [⟨"AAPL", none, none, some 100, none⟩]⟩

/-- Claim C2 counterexample: every asset of `c2CexRequest` supplies
`dollarAmount` and a total is supplied, yet `prepareOrderData` succeeds in
amount mode (with total 100, ignoring the supplied 500) instead of
failing with InvalidPortfolio. -/
theorem mode_detection_counterexample :
    c2CexRequest.assets.all (fun a => a.amount.isSome) = true ∧
      c2CexRequest.amount.isSome = true ∧
      prepareOrderData c2CexRequest =
        .ok ⟨.amount, 100, [⟨"AAPL", none, some 100, none, none⟩]⟩ := by
  refine ⟨rfl, rfl, ?_⟩
  norm_num [prepareOrderData, c2CexRequest, amountModeTotal, amountModeNormalize,
    roundToDecimal]

/-- Claim C2 (amended): mode detection inspects only the first asset.  If
the first asset supplies `allocationPercent` and a total is supplied the
request is processed in allocation mode; otherwise, if the first asset
supplies `dollarAmount`, it is processed in amount mode — even when a
total is also supplied or later assets mix fields; only when the first
asset supplies neither applicable field does the engine fail with
InvalidPortfolio.  (The every-asset/no-total discipline is enforced
upstream by the request schema, not by the engine.) -/
theorem mode_detection_trichotomy (request : OrderRequest)
    (a : RequestAsset) (rest : List RequestAsset)
    (hassets : request.assets = a :: rest) :
    (a.allocation.isSome = true → request.amount.isSome = true →
      prepareOrderData request = .ok ⟨.allocation, request.amount.getD 0, request.assets⟩) ∧
    (¬ (a.allocation.isSome = true ∧ request.amount.isSome = true) →
      a.amount.isSome = true →
      prepareOrderData request =
        .ok ⟨.amount, amountModeTotal request.assets, amountModeNormalize request.assets⟩) ∧
    (¬ (a.allocation.isSome = true ∧ request.amount.isSome = true) →
      a.amount = none →
      prepareOrderData request = .error (.invalidPortfolio .invalidConfig)) := by
  refine ⟨?_, ?_, ?_⟩
  · intro halloc hamt
    obtain ⟨al, hal⟩ := Option.isSome_iff_exists.1 halloc
    obtain ⟨t, ht⟩ := Option.isSome_iff_exists.1 hamt
    simp [prepareOrderData, hassets, hal, ht]
  · intro hnot hamt
    obtain ⟨q, hq⟩ := Option.isSome_iff_exists.1 hamt
    cases hal : a.allocation with
    | none => cases hta : request.amount <;> simp [prepareOrderData, hassets, hal, hta, hq]
    | some al =>
      cases hta : request.amount with
      | none => simp [prepareOrderData, hassets, hal, hta, hq]
      | some t => exact absurd ⟨by simp [hal], by simp [hta]⟩ hnot
  · intro hnot hamt
    cases hal : a.allocation with
    | none => cases hta : request.amount <;> simp [prepareOrderData, hassets, hal, hta, hamt]
    | some al =>
      cases hta : request.amount with
      | none => simp [prepareOrderData, hassets, hal, hta, hamt]
      | some t => exact absurd ⟨by simp [hal], by simp [hta]⟩ hnot

/-- Valid allocation-mode request used to witness the trichotomy. -/
def c2WitnessRequest : OrderRequest :=
  ⟨Side.BUY, some 1000, c1WitnessAssets⟩

theorem mode_detection_trichotomy_witness :
    prepareOrderData c2WitnessRequest =
      .ok ⟨.allocation, c2WitnessRequest.amount.getD 0, c2WitnessRequest.assets⟩ :=
  (mode_detection_trichotomy c2WitnessRequest
      ⟨"AAPL", none, some 40, none, none⟩ [⟨"SPY", none, some 60, none, none⟩] rfl).1
    rfl rfl

theorem foldl_add_getD_amount (l : List RequestAsset) :
    ∀ c : ℚ, l.foldl (fun sum asset => sum + asset.amount.getD 0) c =
      c + (l.map (fun a => a.amount.getD 0)).sum := by
  induction l with
  | nil => intro c; simp
  | cons a t ih => intro c; simp [ih, add_assoc]

theorem amountModeTotal_eq_sum (assets : List RequestAsset) :
    amountModeTotal assets = (assets.map (fun a => a.amount.getD 0)).sum := by
  rw [amountModeTotal, foldl_add_getD_amount, zero_add]

theorem mem_zip_self {α : Type} :
    ∀ (l : List α) (p : α × α), p ∈ l.zip l → p.1 = p.2
  | [], _, h => absurd h (by simp)
  | a :: t, p, h => by
      rcases (by simpa using h : p = (a, a) ∨ p ∈ t.zip t) with h1 | h2
      · simp [h1]
      · exact mem_zip_self t p h2

/-- Re-splitting: run `prepareOrderData` and, on success, feed the
normalized assets and derived total back through `calculateAssetOrders`,
collecting the per-line dollar amounts. -/
def resplitAmounts (request : OrderRequest) (decimalPrecision : Nat) : Option (List ℚ) :=
  match prepareOrderData request with
  | .ok prep => some ((calculateAssetOrders prep.normalizedAssets prep.totalAmount
      decimalPrecision).map (fun o => o.amount))
  | .error _ => none

/-- Whether a request passes `prepareOrderData` followed by
`validatePortfolio` on the normalized assets. -/
def splitValidates (request : OrderRequest) : Bool :=
  match prepareOrderData request with
  | .ok prep =>
    match validatePortfolio prep.normalizedAssets with
    | .ok _ => true
    | .error _ => false
  | .error _ => false

/-- Amount-mode request with amounts 3333.33, 3333.33, 3333.34: the
derived percentages all round to 33.33, so re-splitting yields
3333.00, 3333.00, 3334.00 — off by 0.33 / 0.33 / 0.66. -/
def c3CexRequest : OrderRequest :=
  ⟨Side.BUY, none,
    [⟨"AAA", none, none, some (333333 / 100), none⟩,
     ⟨"BBB", none, none, some (333333 / 100), none⟩,
     ⟨"CCC", none, none, some (333334 / 100), none⟩]⟩

/-- Claim C3 counterexample: a valid amount-mode request (positive
amounts, no total, and it passes portfolio validation) whose re-split
first amount is 3333 while the original was 3333.33 — a 0.33 deviation,
far beyond the claimed ±0.01. -/
theorem amount_roundtrip_counterexample :
    c3CexRequest.amount = none ∧
      (∀ a ∈ c3CexRequest.assets, a.amount.isSome = true ∧ 0 < a.amount.getD 0) ∧
      splitValidates c3CexRequest = true ∧
      resplitAmounts c3CexRequest 3 = some [3333, 3333, 3334] ∧
      ¬ (|(333333 / 100 : ℚ) - 3333| ≤ 1 / 100) := by
  refine ⟨rfl, by norm_num [c3CexRequest], ?_, ?_, by rw [abs_sub_le_iff]; norm_num⟩
  · norm_num [splitValidates, prepareOrderData, c3CexRequest, amountModeTotal,
      amountModeNormalize, roundToDecimal, validatePortfolio, sumAllocations, lt_abs]
  · norm_num [resplitAmounts, prepareOrderData, c3CexRequest, amountModeTotal,
      amountModeNormalize, calculateAssetOrders, calculateAssetOrdersAux,
      roundToDecimal, resolvePrice, defaultAssetPrice]

theorem specAllocationAmounts_ne_nil (assets : List RequestAsset) (total : ℚ)
    (h : assets ≠ []) :
    specAllocationAmounts assets total =
      (assets.dropLast.map
          (fun a => roundToDecimal (a.allocation.getD 0 / 100 * total) 2)) ++
        [total - (assets.dropLast.map
          (fun a => roundToDecimal (a.allocation.getD 0 / 100 * total) 2)).sum] := by
  cases assets with
  | nil => exact absurd rfl h
  | cons a t => simp [specAllocationAmounts]

theorem amountModeNormalize_eq_map (assets : List RequestAsset) :
    amountModeNormalize assets = assets.map (fun asset =>
      ⟨asset.symbol, asset.type?,
        some (roundToDecimal (asset.amount.getD 0 / amountModeTotal assets * 100) 2),
        none, asset.price⟩) := rfl

theorem specAmounts_of_exact (assets : List RequestAsset)
    (hne : assets ≠ [])
    (hpos : ∀ a ∈ assets, a.amount.isSome = true ∧ 0 < a.amount.getD 0)
    (hcents : ∀ a ∈ assets, roundToDecimal (a.amount.getD 0) 2 = a.amount.getD 0)
    (hexact : ∀ a ∈ assets,
      roundToDecimal (a.amount.getD 0 / amountModeTotal assets * 100) 2 =
        a.amount.getD 0 / amountModeTotal assets * 100) :
    specAllocationAmounts (amountModeNormalize assets) (amountModeTotal assets) =
      assets.map (fun a => a.amount.getD 0) := by
  have horig : assets.map (fun a => a.amount.getD 0) ≠ [] := by simp [hne]
  have hTpos : 0 < amountModeTotal assets := by
    rw [amountModeTotal_eq_sum]
    refine List.sum_pos _ (fun x hx => ?_) horig
    obtain ⟨a, ha, rfl⟩ := List.mem_map.1 hx
    exact (hpos a ha).2
  have hnorm_ne : amountModeNormalize assets ≠ [] := by simp [amountModeNormalize, hne]
  rw [specAllocationAmounts_ne_nil _ _ hnorm_ne]
  have hprior :
      (amountModeNormalize assets).dropLast.map
          (fun a => roundToDecimal (a.allocation.getD 0 / 100 * amountModeTotal assets) 2) =
        (assets.map (fun a => a.amount.getD 0)).dropLast := by
    rw [amountModeNormalize_eq_map, ← List.map_dropLast, List.map_map, ← List.map_dropLast]
    refine List.map_congr_left (fun a ha => ?_)
    have hmem := List.mem_of_mem_dropLast ha
    have h1 := hexact a hmem
    simp only [Function.comp_apply, Option.getD_some]
    rw [h1]
    have h2 : a.amount.getD 0 / amountModeTotal assets * 100 / 100 *
        amountModeTotal assets = a.amount.getD 0 := by
      field_simp
      ring
    rw [h2, hcents a hmem]
  rw [hprior]
  have hsplit := List.dropLast_append_getLast horig
  have hsum : amountModeTotal assets =
      ((assets.map (fun a => a.amount.getD 0)).dropLast).sum +
        (assets.map (fun a => a.amount.getD 0)).getLast horig := by
    rw [amountModeTotal_eq_sum]
    conv_lhs => rw [← hsplit]
    rw [List.sum_append, List.sum_cons, List.sum_nil, add_zero]
  rw [hsum]
  have : ((assets.map (fun a => a.amount.getD 0)).dropLast).sum +
        (assets.map (fun a => a.amount.getD 0)).getLast horig -
        ((assets.map (fun a => a.amount.getD 0)).dropLast).sum =
      (assets.map (fun a => a.amount.getD 0)).getLast horig := by ring
  rw [this, hsplit]

/-- Claim C3 (amended): for a valid amount-mode request in which every
dollar amount is exact to the cent and every derived percentage
`dollarAmount/total×100` is already exact at two decimals, re-running the
allocation split with the derived percentages and total reproduces the
original per-asset amounts exactly (in particular within ±0.01).  Without
that proviso the claimed ±0.01 bound fails (see the counterexample). -/
theorem amount_roundtrip_amended (request : OrderRequest) (decimalPrecision : Nat)
    (hne : request.assets ≠ [])
    (hnoTotal : request.amount = none)
    (hpos : ∀ a ∈ request.assets, a.amount.isSome = true ∧ 0 < a.amount.getD 0)
    (hcents : ∀ a ∈ request.assets,
      roundToDecimal (a.amount.getD 0) 2 = a.amount.getD 0)
    (hexact : ∀ a ∈ request.assets,
      roundToDecimal (a.amount.getD 0 / amountModeTotal request.assets * 100) 2 =
        a.amount.getD 0 / amountModeTotal request.assets * 100) :
    resplitAmounts request decimalPrecision =
        some (request.assets.map (fun a => a.amount.getD 0)) ∧
      ∀ p ∈ (request.assets.map (fun a => a.amount.getD 0)).zip
          ((resplitAmounts request decimalPrecision).getD []),
        |p.1 - p.2| ≤ 1 / 100 := by
  rcases request with ⟨ot, amt, assets⟩
  simp only at hne hnoTotal hpos hcents hexact
  subst hnoTotal
  obtain ⟨a, rest, hassets⟩ := List.exists_cons_of_ne_nil hne
  subst hassets
  obtain ⟨q, hq⟩ := Option.isSome_iff_exists.1 (hpos a (List.mem_cons_self a rest)).1
  have hprep : prepareOrderData ⟨ot, none, a :: rest⟩ =
      .ok ⟨.amount, amountModeTotal (a :: rest), amountModeNormalize (a :: rest)⟩ := by
    cases hal : a.allocation <;> simp [prepareOrderData, hal, hq]
  have hres : resplitAmounts ⟨ot, none, a :: rest⟩ decimalPrecision =
      some ((a :: rest).map (fun a => a.amount.getD 0)) := by
    rw [resplitAmounts, hprep]
    have hcalc := calcOrders_amounts_spec (amountModeNormalize (a :: rest))
      (amountModeTotal (a :: rest)) decimalPrecision
      (by simp [amountModeNormalize])
    simp only []
    rw [hcalc, specAmounts_of_exact (a :: rest) (by simp) hpos hcents hexact]
  refine ⟨hres, fun p hp => ?_⟩
  rw [hres, Option.getD_some] at hp
  rw [mem_zip_self _ p hp]
  simp

/-- Exact amount-mode request used to witness the amended round trip. -/
def c3WitnessRequest : OrderRequest :=
  ⟨Side.BUY, none,
    [⟨"AAA", none, none, some 25, none⟩, ⟨"BBB", none, none, some 75, none⟩]⟩

theorem amount_roundtrip_amended_witness :
    resplitAmounts c3WitnessRequest 3 =
        some (c3WitnessRequest.assets.map (fun a => a.amount.getD 0)) ∧
      ∀ p ∈ (c3WitnessRequest.assets.map (fun a => a.amount.getD 0)).zip
          ((resplitAmounts c3WitnessRequest 3).getD []),
        |p.1 - p.2| ≤ 1 / 100 :=
  amount_roundtrip_amended c3WitnessRequest 3 (by simp [c3WitnessRequest])
    rfl (by norm_num [c3WitnessRequest])
    (by norm_num [c3WitnessRequest, roundToDecimal])
    (by norm_num [c3WitnessRequest, amountModeTotal, roundToDecimal])

/-- A local calendar date in the market timezone. -/
structure LocalDate where
  year : Nat
  month : Nat
  day : Nat
deriving DecidableEq, Repr

/-- A Luxon DateTime viewed in the market timezone, shallowly embedded as
its calendar date, ISO weekday (1 = Monday .. 7 = Sunday) and wall-clock
time of day. -/
structure MarketTime where
  date : LocalDate
  weekday : Nat
  hour : Nat
  minute : Nat
  second : Nat
  millisecond : Nat
deriving DecidableEq, Repr

/-- `MARKET_CONFIG` open/close clock times. -/
def marketOpenHour : Nat := 9
def marketOpenMinute : Nat := 30
def marketCloseHour : Nat := 16
def marketCloseMinute : Nat := 0

/-- `MARKET_CONFIG.TRADING_DAYS`: Monday through Friday. -/
def tradingDays : List Nat := [1, 2, 3, 4, 5]

/-- `MARKET_HOLIDAYS_2025`, as local dates. -/
def marketHolidays2025 : List LocalDate :=
  [⟨2025, 1, 1⟩, ⟨2025, 1, 20⟩, ⟨2025, 2, 17⟩, ⟨2025, 4, 18⟩, ⟨2025, 5, 26⟩,
   ⟨2025, 6, 19⟩, ⟨2025, 7, 4⟩, ⟨2025, 9, 1⟩, ⟨2025, 11, 27⟩, ⟨2025, 12, 25⟩]

/-- `MarketService.isTradingDay`. -/
def isTradingDay (t : MarketTime) : Bool :=
  tradingDays.contains t.weekday

/-- `MarketService.isHoliday` (ISO-date membership in the holiday list). -/
def isHoliday (t : MarketTime) : Bool :=
  marketHolidays2025.contains t.date

/-- Milliseconds since local midnight. -/
def todMs (t : MarketTime) : Nat :=
  ((t.hour * 60 + t.minute) * 60 + t.second) * 1000 + t.millisecond

/-- `date.set({hour, minute, second: 0, millisecond: 0})`. -/
def setTime (t : MarketTime) (hour minute : Nat) : MarketTime :=
  { t with hour := hour, minute := minute, second := 0, millisecond := 0 }

/-- `MarketService.isWithinTradingHours`: `marketOpen ≤ date < marketClose`.
Both bounds share the instant's own calendar date, so the Luxon instant
comparison reduces to comparing times of day. -/
def isWithinTradingHours (t : MarketTime) : Bool :=
  let marketOpen := setTime t marketOpenHour marketOpenMinute
  let marketClose := setTime t marketCloseHour marketCloseMinute
  decide (todMs marketOpen ≤ todMs t) && decide (todMs t < todMs marketClose)

/-- `MarketService.isMarketOpen` with its three early returns. -/
def isMarketOpen (t : MarketTime) : Bool :=
  if !isTradingDay t then false
  else if isHoliday t then false
  else if !isWithinTradingHours t then false
  else true

/-- Gregorian leap-year rule. -/
def isLeapYear (y : Nat) : Bool :=
  (y % 4 == 0 && y % 100 != 0) || y % 400 == 0

/-- Days in a Gregorian month. -/
def daysInMonth (y m : Nat) : Nat :=
  if m = 2 then (if isLeapYear y then 29 else 28)
  else if m = 4 ∨ m = 6 ∨ m = 9 ∨ m = 11 then 30
  else 31

/-- Successor calendar date. -/
def nextDate (d : LocalDate) : LocalDate :=
  if d.day < daysInMonth d.year d.month then ⟨d.year, d.month, d.day + 1⟩
  else if d.month < 12 then ⟨d.year, d.month + 1, 1⟩
  else ⟨d.year + 1, 1, 1⟩

/-- ISO weekday of the next day (cycles 1..7). -/
def nextWeekday (w : Nat) : Nat := w % 7 + 1

/-- `plus({days: 1})`: advance the calendar date and the weekday. -/
def plusOneDay (t : MarketTime) : MarketTime :=
  { t with date := nextDate t.date, weekday := nextWeekday t.weekday }

/-- `MarketService.getNextMarketOpen`: today's open if the instant
precedes it on a valid non-holiday trading day, else tomorrow's open. -/
def getNextMarketOpen (current : MarketTime) : MarketTime :=
  let todayOpen := setTime current marketOpenHour marketOpenMinute
  if decide (todMs current < todMs todayOpen) && isTradingDay current &&
      !isHoliday current then
    todayOpen
  else
    setTime (plusOneDay current) marketOpenHour marketOpenMinute

/-- `MarketService.getNextMonday` advances one day at a time until the
weekday is Monday, then sets the open time.  The source loop is unbounded;
for weekdays in 1..7 it terminates within 6 steps, so fuel 7 is exact. -/
def nextMondayAux : Nat → MarketTime → MarketTime
  | 0, t => t
  | fuel + 1, t => if t.weekday = 1 then t else nextMondayAux fuel (plusOneDay t)

def getNextMonday (t : MarketTime) : MarketTime :=
  setTime (nextMondayAux 7 t) marketOpenHour marketOpenMinute

/-- The bounded forward scan in `MarketService.getNextTradingTime`:
up to `maxAttempts = 30` checks, advancing to the next day's open after
each failed check; on exhaustion fall back to `getNextMonday`. -/
def nextTradingScan : Nat → MarketTime → MarketTime
  | 0, current => getNextMonday current
  | fuel + 1, current =>
    if isTradingDay current && !isHoliday current then current
    else nextTradingScan fuel (setTime (plusOneDay current) marketOpenHour marketOpenMinute)

/-- `MarketService.getNextTradingTime`: an already-open instant is
returned unchanged; otherwise scan forward from the next market open. -/
def getNextTradingTime (t : MarketTime) : MarketTime :=
  if isMarketOpen t then t
  else nextTradingScan 30 (getNextMarketOpen t)

/-- Claim C9: `isMarketOpen` is false on Saturdays and Sundays, false on
holidays, false outside the half-open local interval [09:30, 16:00), and
true on a Monday-to-Friday non-holiday instant inside that interval
(34200000 and 57600000 are 09:30 and 16:00 as milliseconds of day). -/
theorem isMarketOpen_characterization (t : MarketTime)
    (hweek : 1 ≤ t.weekday ∧ t.weekday ≤ 7) :
    ((t.weekday = 6 ∨ t.weekday = 7) → isMarketOpen t = false) ∧
      (t.date ∈ marketHolidays2025 → isMarketOpen t = false) ∧
      ((todMs t < 34200000 ∨ 57600000 ≤ todMs t) → isMarketOpen t = false) ∧
      ((t.weekday ≠ 6 ∧ t.weekday ≠ 7) → t.date ∉ marketHolidays2025 →
        34200000 ≤ todMs t → todMs t < 57600000 → isMarketOpen t = true) := by
  have hopen : todMs (setTime t marketOpenHour marketOpenMinute) = 34200000 := by
    show ((9 * 60 + 30) * 60 + 0) * 1000 + 0 = 34200000
    norm_num
  have hclose : todMs (setTime t marketCloseHour marketCloseMinute) = 57600000 := by
    show ((16 * 60 + 0) * 60 + 0) * 1000 + 0 = 57600000
    norm_num
  refine ⟨?_, ?_, ?_, ?_⟩
  · intro h67
    have hft : isTradingDay t = false := by
      rcases h67 with h | h <;> simp [isTradingDay, tradingDays, h]
    simp [isMarketOpen, hft]
  · intro hhol
    have : isHoliday t = true := by simp [isHoliday, hhol]
    simp [isMarketOpen, this]
  · intro hout
    have hwf : isWithinTradingHours t = false := by
      simp [isWithinTradingHours, hopen, hclose]
      omega
    simp [isMarketOpen, hwf]
  · intro ⟨h6, h7⟩ hhol hlo hhi
    have htrade : isTradingDay t = true := by
      have : t.weekday = 1 ∨ t.weekday = 2 ∨ t.weekday = 3 ∨ t.weekday = 4 ∨
          t.weekday = 5 := by omega
      rcases this with h | h | h | h | h <;> simp [isTradingDay, tradingDays, h]
    have hh : isHoliday t = false := by
      simp [isHoliday, hhol]
    have hw : isWithinTradingHours t = true := by
      simp [isWithinTradingHours, hopen, hclose]
      omega
    simp [isMarketOpen, htrade, hh, hw]

/-- Open instant: Wednesday 2025-03-12 at 10:00 local time. -/
def openInstant : MarketTime := ⟨⟨2025, 3, 12⟩, 3, 10, 0, 0, 0⟩

theorem isMarketOpen_characterization_witness :
    isMarketOpen openInstant = true :=
  (isMarketOpen_characterization openInstant (by decide)).2.2.2 (by decide)
    (by decide) (by decide) (by decide)

/-- Claim C10: `getNextTradingTime` returns an already-open instant
unchanged. -/
theorem nextTradingTime_open_identity (t : MarketTime)
    (h : isMarketOpen t = true) : getNextTradingTime t = t := by
  simp [getNextTradingTime, h]

theorem nextTradingTime_open_identity_witness :
    isMarketOpen openInstant = true ∧ getNextTradingTime openInstant = openInstant :=
  ⟨by decide, nextTradingTime_open_identity openInstant (by decide)⟩

/-- JavaScript `Map` lookup over an insertion-ordered association list. -/
def alGet {κ α : Type} [DecidableEq κ] (m : List (κ × α)) (k : κ) : Option α :=
  (m.find? (fun e => decide (e.1 = k))).map (fun e => e.2)

/-- JavaScript `Map.set`: update the entry in place when the key exists,
otherwise append a fresh entry (preserving insertion order). -/
def alSet {κ α : Type} [DecidableEq κ] (m : List (κ × α)) (k : κ) (v : α) :
    List (κ × α) :=
  if (m.find? (fun e => decide (e.1 = k))).isSome then
    m.map (fun e => if e.1 = k then (k, v) else e)
  else m ++ [(k, v)]

/-- JavaScript `Set.add` on an insertion-ordered duplicate-free list. -/
def setAdd {α : Type} [DecidableEq α] (s : List α) (a : α) : List α :=
  if a ∈ s then s else s ++ [a]

/-- `if (!map.has(k)) map.set(k, new Set()); map.get(k).add(id)`. -/
def idxAdd {κ : Type} [DecidableEq κ] (m : List (κ × List Nat)) (k : κ) (id : Nat) :
    List (κ × List Nat) :=
  alSet m k (setAdd ((alGet m k).getD []) id)

/-- The id set stored under key `k` (empty when the key is absent). -/
def idxSet {κ : Type} [DecidableEq κ] (m : List (κ × List Nat)) (k : κ) : List Nat :=
  (alGet m k).getD []

/-- A persisted order as the repository sees it: id, side, total,
asset lines, and creation timestamp (ISO strings modelled as Nat). -/
structure StoredOrder where
  orderId : Nat
  orderType : Side
  totalAmount : ℚ
  assetOrders : List AssetOrder
  createdAt : Nat
deriving DecidableEq, Repr

/-- The statistics record computed by `OrderRepository.getStats`. -/
structure StatsData where
  totalOrders : Nat
  ordersByType : List (Side × Nat)
  ordersByAssetType : List (String × Nat)
  uniqueSymbols : Nat
  totalVolume : ℚ
  averageOrderSize : ℚ
deriving DecidableEq, Repr

/-- The `{data, timestamp, ttl}` statistics cache entry. -/
structure StatsCache where
  data : StatsData
  timestamp : Nat
  ttl : Nat
deriving DecidableEq, Repr

/-- The mutable state of `OrderRepository`: primary map, three secondary
indexes, insertion-ordered id list, and the nullable stats cache. -/
structure RepoState where
  orders : List (Nat × StoredOrder)
  ordersByType : List (Side × List Nat)
  ordersBySymbol : List (String × List Nat)
  ordersByAssetType : List (String × List Nat)
  ordersByDate : List Nat
  statsCache : Option StatsCache
deriving DecidableEq, Repr

/-- Body of the `order.assetOrders.forEach` loop in `save`: add the id
under the asset's symbol, and under its asset type when present. -/
def saveAssetStep (orderId : Nat)
    (maps : List (String × List Nat) × List (String × List Nat))
    (asset : AssetOrder) :
    List (String × List Nat) × List (String × List Nat) :=
  (idxAdd maps.1 asset.symbol orderId,
   match asset.type? with
   | some ty => idxAdd maps.2 ty orderId
   | none => maps.2)

/-- `OrderRepository.save`: store in the primary map, update the three
secondary indexes, append to the date-ordered id list, and invalidate the
stats cache. -/
def save (order : StoredOrder) (s : RepoState) : RepoState :=
  let maps := order.assetOrders.foldl (saveAssetStep order.orderId)
    (s.ordersBySymbol, s.ordersByAssetType)
  { orders := alSet s.orders order.orderId order
    ordersByType := idxAdd s.ordersByType order.orderType order.orderId
    ordersBySymbol := maps.1
    ordersByAssetType := maps.2
    ordersByDate := s.ordersByDate ++ [order.orderId]
    statsCache := none }

/-- Query parameters (`OrderQueryInput` after schema parsing). -/
structure QueryParams where
  orderType : Option Side
  symbol : Option String
  assetType : Option String
  fromDate : Option Nat
  toDate : Option Nat
  limit : Option Nat
  offset : Option Nat
deriving DecidableEq, Repr

/-- A query result page with its pagination envelope. -/
structure QueryResult where
  orders : List StoredOrder
  total : Nat
  limit : Nat
  offset : Nat
  hasMore : Bool
deriving DecidableEq, Repr

/-- JavaScript `x || d` on an optional number (0 is falsy). -/
def jsOrNat (o : Option Nat) (d : Nat) : Nat :=
  match o with
  | some n => if n = 0 then d else n
  | none => d

/-- `OrderRepository.emptyResult`. -/
def emptyResult (params : QueryParams) : QueryResult :=
  ⟨[], 0, jsOrNat params.limit 50, jsOrNat params.offset 0, false⟩

/-- Stable insertion sort: `a` is placed before `b` exactly when
`le a b`; ties keep the original order.  This models JavaScript's
(specified-stable) `Array.prototype.sort` with comparator
`cmp(a,b) ≤ 0 ↔ le a b`. -/
def sortInsert {α : Type} (le : α → α → Bool) (a : α) : List α → List α
  | [] => [a]
  | b :: bs => if le a b then a :: b :: bs else b :: sortInsert le a bs

def stableSort {α : Type} (le : α → α → Bool) : List α → List α
  | [] => []
  | a :: as => sortInsert le a (stableSort le as)

/-- `OrderRepository.intersectSets`: sort the sets by ascending size
(stable), then repeatedly filter the smallest through the others. -/
def intersectSets (sets : List (List Nat)) : List Nat :=
  match sets with
  | [] => []
  | [s] => s
  | _ :: _ :: _ =>
    match stableSort (fun a b => decide (a.length ≤ b.length)) sets with
    | [] => []
    | s0 :: rest =>
      rest.foldl (fun result s => result.filter (fun id => decide (id ∈ s))) s0

/-- The per-order date-range test of `filterByDateRange` (inclusive on
both ends: strictly-before-`fromDate` and strictly-after-`toDate` are
rejected). -/
def dateInRange (createdAt : Nat) (fromDate toDate : Option Nat) : Bool :=
  (match fromDate with
   | some fd => !decide (createdAt < fd)
   | none => true) &&
  (match toDate with
   | some td => !decide (td < createdAt)
   | none => true)

/-- `OrderRepository.filterByDateRange` (ids missing from the primary map
are dropped). -/
def filterByDateRange (s : RepoState) (orderIds : List Nat)
    (fromDate toDate : Option Nat) : List Nat :=
  if fromDate = none ∧ toDate = none then orderIds
  else orderIds.filter (fun id =>
    match alGet s.orders id with
    | none => false
    | some order => dateInRange order.createdAt fromDate toDate)

/-- The `sortByDate` comparator for direction `desc`:
`timeB - timeA`, with 0 when either order is missing. -/
def dateCmpDesc (s : RepoState) (a b : Nat) : Int :=
  match alGet s.orders a, alGet s.orders b with
  | some orderA, some orderB => (orderB.createdAt : Int) - (orderA.createdAt : Int)
  | _, _ => 0

/-- `OrderRepository.sortByDate` with direction `desc` (the only
direction the repository uses), modelled as the stable sort induced by
the comparator. -/
def sortByDate (s : RepoState) (orderIds : List Nat) : List Nat :=
  stableSort (fun a b => decide (dateCmpDesc s a b ≤ 0)) orderIds

/-- `OrderRepository.batchGetOrders`. -/
def batchGetOrders (s : RepoState) (orderIds : List Nat) : List StoredOrder :=
  orderIds.filterMap (fun id => alGet s.orders id)

/-- The filter-collection phase of `findAll`: resolve each supplied
categorical filter against its index, failing fast (`none` = the
early `emptyResult` return) when a supplied value is absent. -/
def collectFilters (s : RepoState) (params : QueryParams) :
    Option (List (List Nat)) :=
  (match params.orderType with
   | some ot =>
     match alGet s.ordersByType ot with
     | some typeIds => some [typeIds]
     | none => none
   | none => some []).bind (fun fs1 =>
  (match params.symbol with
   | some sym =>
     match alGet s.ordersBySymbol sym with
     | some symbolIds => some (fs1 ++ [symbolIds])
     | none => none
   | none => some fs1).bind (fun fs2 =>
  match params.assetType with
  | some aty =>
    match alGet s.ordersByAssetType aty with
    | some assetTypeIds => some (fs2 ++ [assetTypeIds])
    | none => none
  | none => some fs2))

/-- `OrderRepository.findAll`: index-based candidate collection,
intersection, date filtering, descending date sort, pagination, and
batch retrieval. -/
def findAll (params : QueryParams) (s : RepoState) : QueryResult :=
  match collectFilters s params with
  | none => emptyResult params
  | some filters =>
    let orderIds := if filters.length > 0 then intersectSets filters else s.ordersByDate
    let filteredIds :=
      if params.fromDate.isSome || params.toDate.isSome then
        filterByDateRange s orderIds params.fromDate params.toDate
      else orderIds
    let sortedIds := sortByDate s filteredIds
    let limit := jsOrNat params.limit 50
    let offset := jsOrNat params.offset 0
    let total := sortedIds.length
    let paginatedIds := (sortedIds.drop offset).take limit
    ⟨batchGetOrders s paginatedIds, total, limit, offset, decide (offset + limit < total)⟩

/-- The statistics computation (the cache-miss path of `getStats`). -/
def computeStats (s : RepoState) : StatsData :=
  let ordersByType := s.ordersByType.map (fun e => (e.1, e.2.length))
  let ordersByAssetType := s.ordersByAssetType.map (fun e => (e.1, e.2.length))
  let totalVolume := s.orders.foldl (fun acc e => acc + e.2.totalAmount) 0
  ⟨s.orders.length, ordersByType, ordersByAssetType, s.ordersBySymbol.length,
    totalVolume,
    if s.orders.length > 0 then totalVolume / (s.orders.length : ℚ) else 0⟩

/-- The 60-second cache TTL. -/
def statsCacheTtl : Nat := 60000

/-- `OrderRepository.getStats` at time `now`: serve a young cached
snapshot, else recompute and cache.  Returns the stats and the updated
state. -/
def getStats (now : Nat) (s : RepoState) : StatsData × RepoState :=
  match s.statsCache with
  | some cache =>
    if now - cache.timestamp < cache.ttl then (cache.data, s)
    else (computeStats s, { s with statsCache := some ⟨computeStats s, now, statsCacheTtl⟩ })
  | none =>
    (computeStats s, { s with statsCache := some ⟨computeStats s, now, statsCacheTtl⟩ })

/-- The freshly constructed repository. -/
def initState : RepoState := ⟨[], [], [], [], [], none⟩

/-- `OrderRepository.clear`: empty every map, set and list and null the
stats cache. -/
def clear (_ : RepoState) : RepoState := initState

/-- Repository states reachable through the public operations: the fresh
store, `save` with an id not already present (duplicate ids are defined
never to occur), `getStats` at any time, and `clear`.  Queries are pure
and do not change the state. -/
inductive Reachable : RepoState → Prop where
  | init : Reachable initState
  | save (order : StoredOrder) (s : RepoState) :
      Reachable s → alGet s.orders order.orderId = none → Reachable (save order s)
  | stats (now : Nat) (s : RepoState) : Reachable s → Reachable (getStats now s).2
  | reset (s : RepoState) : Reachable s → Reachable (clear s)

section AListLemmas

variable {κ α : Type} [DecidableEq κ]

theorem alGet_nil (k : κ) : alGet ([] : List (κ × α)) k = none := rfl

theorem alGet_cons (k' : κ) (v : α) (m : List (κ × α)) (k : κ) :
    alGet ((k', v) :: m) k = if k' = k then some v else alGet m k := by
  by_cases h : k' = k <;> simp [alGet, List.find?_cons, h]

theorem alGet_eq_none_iff (m : List (κ × α)) (k : κ) :
    alGet m k = none ↔ k ∉ m.map (fun e => e.1) := by
  induction m with
  | nil => simp [alGet_nil]
  | cons e t ih =>
    obtain ⟨k', v⟩ := e
    rw [alGet_cons]
    by_cases h : k' = k
    · subst h
      simp
    · simp only [if_neg h, ih, List.map_cons, List.mem_cons]
      constructor
      · intro hnot hmem
        rcases hmem with h1 | h1
        · exact h h1.symm
        · exact hnot h1
      · intro hnot h1
        exact hnot (Or.inr h1)

theorem alGet_mem (m : List (κ × α)) (k : κ) (v : α)
    (hmem : (k, v) ∈ m) (hnd : (m.map (fun e => e.1)).Nodup) :
    alGet m k = some v := by
  induction m with
  | nil => simp at hmem
  | cons e t ih =>
    obtain ⟨k', v'⟩ := e
    simp only [List.map_cons, List.nodup_cons] at hnd
    rcases List.mem_cons.1 hmem with h | h
    · obtain ⟨hk, hv⟩ := Prod.ext_iff.mp h
      simp only at hk hv
      subst hk
      subst hv
      simp [alGet_cons]
    · have hk : k' ≠ k := by
        rintro rfl
        exact hnd.1 (List.mem_map.2 ⟨(k', v), h, rfl⟩)
      rw [alGet_cons, if_neg hk]
      exact ih h hnd.2

theorem alGet_some_mem (m : List (κ × α)) (k : κ) (v : α)
    (h : alGet m k = some v) : (k, v) ∈ m := by
  induction m with
  | nil => simp [alGet_nil] at h
  | cons e t ih =>
    obtain ⟨k', v'⟩ := e
    rw [alGet_cons] at h
    by_cases hk : k' = k
    · rw [if_pos hk] at h
      have hv : v' = v := Option.some.inj h
      subst hk
      subst hv
      exact List.mem_cons_self _ _
    · rw [if_neg hk] at h
      exact List.mem_cons.2 (Or.inr (ih h))

theorem alSet_of_absent (m : List (κ × α)) (k : κ) (v : α)
    (h : alGet m k = none) : alSet m k v = m ++ [(k, v)] := by
  have hfind : m.find? (fun e => decide (e.1 = k)) = none := by
    rcases hf : m.find? (fun e => decide (e.1 = k)) with _ | e
    · exact hf
    · rw [alGet, hf] at h
      simp at h
  simp [alSet, hfind]

theorem alGet_append_single (m : List (κ × α)) (k k' : κ) (v : α)
    (h : alGet m k = none) :
    alGet (m ++ [(k, v)]) k' = if k = k' then some v else alGet m k' := by
  induction m with
  | nil => simp [alGet_nil, alGet_cons]
  | cons e t ih =>
    obtain ⟨k₀, v₀⟩ := e
    rw [alGet_cons] at h
    by_cases h₀ : k₀ = k
    · simp [h₀] at h
    · rw [if_neg h₀] at h
      by_cases h₀' : k₀ = k'
      · have hkk : k ≠ k' := fun hkk => h₀ (h₀'.trans hkk.symm)
        simp [List.cons_append, alGet_cons, h₀', hkk]
      · simp only [List.cons_append, alGet_cons, if_neg h₀']
        exact ih h

end AListLemmas

theorem mem_setAdd (s : List Nat) (a b : Nat) :
    b ∈ setAdd s a ↔ b ∈ s ∨ b = a := by
  by_cases h : a ∈ s
  · simp only [setAdd, if_pos h]
    constructor
    · exact Or.inl
    · rintro (hb | rfl)
      · exact hb
      · exact h
  · simp [setAdd, if_neg h]

theorem setAdd_of_not_mem (s : List Nat) (a : Nat) (h : a ∉ s) :
    setAdd s a = s ++ [a] := if_neg h

theorem setAdd_of_mem (s : List Nat) (a : Nat) (h : a ∈ s) :
    setAdd s a = s := if_pos h

theorem idxSet_idxAdd_self {κ : Type} [DecidableEq κ]
    (m : List (κ × List Nat)) (k : κ) (id : Nat) :
    idxSet (idxAdd m k id) k = setAdd (idxSet m k) id := by
  rw [idxAdd, idxSet]
  rcases hg : alGet m k with _ | s
  · rw [alSet_of_absent m k _ hg, alGet_append_single m k k _ hg, if_pos rfl]
    simp [idxSet, hg]
  · -- key present: the map branch of alSet rewrites the entry
    have hmap : ∀ (t : List (κ × List Nat)) (v : List Nat),
        alGet t k ≠ none →
        alGet (t.map (fun e => if e.1 = k then (k, v) else e)) k = some v := by
      intro t v
      induction t with
      | nil => simp [alGet_nil]
      | cons e rest ih =>
        obtain ⟨k₀, v₀⟩ := e
        intro hne
        by_cases h₀ : k₀ = k
        · subst h₀
          simp [alGet_cons]
        · rw [alGet_cons, if_neg h₀] at hne
          simp [alGet_cons, h₀, ih hne]
    have hfind : (m.find? (fun e => decide (e.1 = k))).isSome := by
      rcases hf : m.find? (fun e => decide (e.1 = k)) with _ | e
      · rw [alGet, hf] at hg
        simp at hg
      · rw [hf]
        rfl
    rw [alSet, if_pos hfind, hmap m _ (by rw [hg]; simp)]
    simp [idxSet, hg]

theorem idxSet_idxAdd_ne {κ : Type} [DecidableEq κ]
    (m : List (κ × List Nat)) (k k' : κ) (id : Nat) (hk : k ≠ k') :
    idxSet (idxAdd m k id) k' = idxSet m k' := by
  rw [idxAdd, idxSet, idxSet]
  rcases hg : alGet m k with _ | s
  · rw [alSet_of_absent m k _ hg, alGet_append_single m k k' _ hg, if_neg hk]
  · have hmap : ∀ (t : List (κ × List Nat)) (v : List Nat),
        alGet (t.map (fun e => if e.1 = k then (k, v) else e)) k' = alGet t k' := by
      intro t v
      induction t with
      | nil => simp [alGet_nil]
      | cons e rest ih =>
        obtain ⟨k₀, v₀⟩ := e
        by_cases h₀ : k₀ = k
        · subst h₀
          simp [alGet_cons, hk, ih]
        · by_cases h₀' : k₀ = k'
          · simp [alGet_cons, h₀, h₀', hk.symm]
          · simp [alGet_cons, h₀, h₀', ih]
    have hfind : (m.find? (fun e => decide (e.1 = k))).isSome := by
      rcases hf : m.find? (fun e => decide (e.1 = k)) with _ | e
      · rw [alGet, hf] at hg
        simp at hg
      · rw [hf]
        rfl
    rw [alSet, if_pos hfind, hmap]

theorem setAdd_idem (s : List Nat) (a : Nat) : setAdd (setAdd s a) a = setAdd s a :=
  setAdd_of_mem _ _ ((mem_setAdd s a a).2 (Or.inr rfl))

theorem saveAssets_fst (oid : Nat) :
    ∀ (assets : List AssetOrder) (ms ma : List (String × List Nat)),
      (assets.foldl (saveAssetStep oid) (ms, ma)).1 =
        assets.foldl (fun acc l => idxAdd acc l.symbol oid) ms
  | [], _, _ => rfl
  | l :: rest, ms, ma => by
      simp only [List.foldl_cons, saveAssetStep]
      exact saveAssets_fst oid rest _ _

theorem saveAssets_snd (oid : Nat) :
    ∀ (assets : List AssetOrder) (ms ma : List (String × List Nat)),
      (assets.foldl (saveAssetStep oid) (ms, ma)).2 =
        assets.foldl (fun acc l =>
          match l.type? with
          | some ty => idxAdd acc ty oid
          | none => acc) ma
  | [], _, _ => rfl
  | l :: rest, ms, ma => by
      simp only [List.foldl_cons, saveAssetStep]
      exact saveAssets_snd oid rest _ _

theorem foldIdx_symbol (oid : Nat) :
    ∀ (assets : List AssetOrder) (ms : List (String × List Nat)) (k : String),
      idxSet (assets.foldl (fun acc l => idxAdd acc l.symbol oid) ms) k =
        if assets.any (fun l => decide (l.symbol = k)) then
          setAdd (idxSet ms k) oid
        else idxSet ms k
  | [], ms, k => by simp
  | l :: rest, ms, k => by
      rw [List.foldl_cons, foldIdx_symbol oid rest _ k]
      by_cases hk : l.symbol = k
      · subst hk
        rw [idxSet_idxAdd_self]
        have hR : (l :: rest).any (fun x => decide (x.symbol = l.symbol)) = true := by simp
        rw [hR, if_pos rfl]
        by_cases hr : rest.any (fun x => decide (x.symbol = l.symbol)) = true
        · rw [if_pos hr, setAdd_idem]
        · rw [if_neg hr]
      · rw [idxSet_idxAdd_ne _ _ _ _ hk]
        have hR : (l :: rest).any (fun x => decide (x.symbol = k)) =
            rest.any (fun x => decide (x.symbol = k)) := by simp [hk]
        rw [hR]

theorem foldIdx_assetType (oid : Nat) :
    ∀ (assets : List AssetOrder) (ma : List (String × List Nat)) (k : String),
      idxSet (assets.foldl (fun acc l =>
          match l.type? with
          | some ty => idxAdd acc ty oid
          | none => acc) ma) k =
        if assets.any (fun l => decide (l.type? = some k)) then
          setAdd (idxSet ma k) oid
        else idxSet ma k
  | [], ma, k => by simp
  | l :: rest, ma, k => by
      rw [List.foldl_cons, foldIdx_assetType oid rest _ k]
      cases hty : l.type? with
      | none => simp [hty]
      | some ty =>
        by_cases hk : ty = k
        · subst hk
          rw [idxSet_idxAdd_self]
          have hR : (l :: rest).any (fun x => decide (x.type? = some ty)) = true := by
            simp [hty]
          rw [hR, if_pos rfl]
          by_cases hr : rest.any (fun x => decide (x.type? = some ty)) = true
          · rw [if_pos hr, setAdd_idem]
          · rw [if_neg hr]
        · rw [idxSet_idxAdd_ne _ _ _ _ hk]
          have hR : (l :: rest).any (fun x => decide (x.type? = some k)) =
              rest.any (fun x => decide (x.type? = some k)) := by simp [hty, hk]
          rw [hR]

theorem save_fields (order : StoredOrder) (s : RepoState) :
    (save order s).orders = alSet s.orders order.orderId order ∧
      (save order s).ordersByDate = s.ordersByDate ++ [order.orderId] ∧
      (save order s).statsCache = none := ⟨rfl, rfl, rfl⟩

theorem save_idxSet_type (order : StoredOrder) (s : RepoState) (k : Side) :
    idxSet (save order s).ordersByType k =
      if decide (order.orderType = k) then
        setAdd (idxSet s.ordersByType k) order.orderId
      else idxSet s.ordersByType k := by
  show idxSet (idxAdd s.ordersByType order.orderType order.orderId) k = _
  by_cases hk : order.orderType = k
  · subst hk
    rw [idxSet_idxAdd_self]
    simp
  · rw [idxSet_idxAdd_ne _ _ _ _ hk]
    simp [hk]

theorem save_idxSet_symbol (order : StoredOrder) (s : RepoState) (k : String) :
    idxSet (save order s).ordersBySymbol k =
      if order.assetOrders.any (fun l => decide (l.symbol = k)) then
        setAdd (idxSet s.ordersBySymbol k) order.orderId
      else idxSet s.ordersBySymbol k := by
  show idxSet ((order.assetOrders.foldl (saveAssetStep order.orderId)
    (s.ordersBySymbol, s.ordersByAssetType)).1) k = _
  rw [saveAssets_fst, foldIdx_symbol]

theorem save_idxSet_assetType (order : StoredOrder) (s : RepoState) (k : String) :
    idxSet (save order s).ordersByAssetType k =
      if order.assetOrders.any (fun l => decide (l.type? = some k)) then
        setAdd (idxSet s.ordersByAssetType k) order.orderId
      else idxSet s.ordersByAssetType k := by
  show idxSet ((order.assetOrders.foldl (saveAssetStep order.orderId)
    (s.ordersBySymbol, s.ordersByAssetType)).2) k = _
  rw [saveAssets_snd, foldIdx_assetType]

/-- The repository well-formedness invariant: the insertion-ordered id
list is exactly the primary keys, and each secondary index set is
duplicate-free, a subsequence of the insertion order, and holds exactly
the ids of primary orders satisfying its key predicate; a non-null stats
cache holds the statistics of the current state. -/
structure WF (s : RepoState) : Prop where
  keysNodup : (s.orders.map (fun e => e.1)).Nodup
  dateKeys : s.ordersByDate = s.orders.map (fun e => e.1)
  typeNodup : ∀ k : Side, (idxSet s.ordersByType k).Nodup
  typeSub : ∀ k : Side, (idxSet s.ordersByType k).Sublist s.ordersByDate
  typeMem : ∀ (k : Side) (id : Nat), id ∈ idxSet s.ordersByType k ↔
    ∃ o, alGet s.orders id = some o ∧ o.orderType = k
  symNodup : ∀ k : String, (idxSet s.ordersBySymbol k).Nodup
  symSub : ∀ k : String, (idxSet s.ordersBySymbol k).Sublist s.ordersByDate
  symMem : ∀ (k : String) (id : Nat), id ∈ idxSet s.ordersBySymbol k ↔
    ∃ o, alGet s.orders id = some o ∧ ∃ l ∈ o.assetOrders, l.symbol = k
  atyNodup : ∀ k : String, (idxSet s.ordersByAssetType k).Nodup
  atySub : ∀ k : String, (idxSet s.ordersByAssetType k).Sublist s.ordersByDate
  atyMem : ∀ (k : String) (id : Nat), id ∈ idxSet s.ordersByAssetType k ↔
    ∃ o, alGet s.orders id = some o ∧ ∃ l ∈ o.assetOrders, l.type? = some k
  cacheOk : ∀ c, s.statsCache = some c → c.data = computeStats s

theorem index_block_nodup (S : List Nat) (oid : Nat) (b : Bool)
    (hnd : S.Nodup) (hfresh : oid ∉ S) :
    (if b then setAdd S oid else S).Nodup := by
  cases b
  · simpa using hnd
  · rw [if_pos rfl, setAdd_of_not_mem _ _ hfresh]
    simp [List.nodup_append, hnd, hfresh]

theorem index_block_sublist (S dates : List Nat) (oid : Nat) (b : Bool)
    (hsub : S.Sublist dates) (hfresh : oid ∉ S) :
    (if b then setAdd S oid else S).Sublist (dates ++ [oid]) := by
  cases b
  · simpa using hsub.trans (List.sublist_append_left dates [oid])
  · rw [if_pos rfl, setAdd_of_not_mem _ _ hfresh]
    exact hsub.append (List.Sublist.refl [oid])

theorem index_block_mem (orders : List (Nat × StoredOrder)) (oid : Nat)
    (o : StoredOrder) (P : StoredOrder → Prop) (S : List Nat) (b : Bool)
    (hfresh : alGet orders oid = none)
    (hmem : ∀ id, id ∈ S ↔ ∃ o', alGet orders id = some o' ∧ P o')
    (hb : b = true ↔ P o) :
    ∀ id, (id ∈ if b then setAdd S oid else S) ↔
      ∃ o', alGet (orders ++ [(oid, o)]) id = some o' ∧ P o' := by
  have hfreshS : oid ∉ S := by
    intro h
    obtain ⟨o', ho', _⟩ := (hmem oid).1 h
    rw [hfresh] at ho'
    cases ho'
  intro id
  rw [alGet_append_single orders oid id o hfresh]
  by_cases hid : oid = id
  · subst hid
    rw [if_pos rfl]
    have hrhs : (∃ o', some o = some o' ∧ P o') ↔ P o := by
      constructor
      · rintro ⟨o', ho', hp⟩
        rwa [← Option.some.inj ho'] at hp
      · exact fun hp => ⟨o, rfl, hp⟩
    rw [hrhs]
    cases hcb : b
    · rw [if_neg (by simp)]
      constructor
      · intro h
        exact absurd h hfreshS
      · intro hp
        rw [← hb, hcb] at hp
        cases hp
    · rw [if_pos rfl, mem_setAdd]
      constructor
      · intro _
        exact hb.1 hcb
      · intro _
        exact Or.inr rfl
  · rw [if_neg hid]
    have hLHS : (id ∈ if b then setAdd S oid else S) ↔ id ∈ S := by
      cases b
      · simp
      · rw [if_pos rfl, mem_setAdd]
        constructor
        · rintro (h | rfl)
          · exact h
          · exact absurd rfl hid
        · exact Or.inl
    rw [hLHS, hmem id]

theorem idxSet_nil {κ : Type} [DecidableEq κ] (k : κ) :
    idxSet ([] : List (κ × List Nat)) k = [] := rfl

theorem wf_initState : WF initState := by
  constructor <;> simp [initState, idxSet_nil, alGet_nil]

theorem nodup_snoc {α : Type} (l : List α) (a : α) (h : l.Nodup) (ha : a ∉ l) :
    (l ++ [a]).Nodup := by
  rw [List.nodup_append]
  refine ⟨h, List.nodup_singleton a, ?_⟩
  intro x hx hx2
  simp only [List.mem_singleton] at hx2
  subst hx2
  exact ha hx

theorem wf_save (order : StoredOrder) (s : RepoState) (hwf : WF s)
    (hfresh : alGet s.orders order.orderId = none) : WF (save order s) := by
  have horders : (save order s).orders = s.orders ++ [(order.orderId, order)] := by
    show alSet s.orders order.orderId order = _
    exact alSet_of_absent _ _ _ hfresh
  have hdates : (save order s).ordersByDate = s.ordersByDate ++ [order.orderId] := rfl
  have hOidKey : order.orderId ∉ s.orders.map (fun e => e.1) :=
    (alGet_eq_none_iff _ _).1 hfresh
  have hTfresh : ∀ k : Side, order.orderId ∉ idxSet s.ordersByType k := by
    intro k h
    obtain ⟨o', ho', _⟩ := (hwf.typeMem k order.orderId).1 h
    rw [hfresh] at ho'
    cases ho'
  have hSfresh : ∀ k : String, order.orderId ∉ idxSet s.ordersBySymbol k := by
    intro k h
    obtain ⟨o', ho', _⟩ := (hwf.symMem k order.orderId).1 h
    rw [hfresh] at ho'
    cases ho'
  have hAfresh : ∀ k : String, order.orderId ∉ idxSet s.ordersByAssetType k := by
    intro k h
    obtain ⟨o', ho', _⟩ := (hwf.atyMem k order.orderId).1 h
    rw [hfresh] at ho'
    cases ho'
  refine ⟨?_, ?_, ?_, ?_, ?_, ?_, ?_, ?_, ?_, ?_, ?_, ?_⟩
  · rw [horders, List.map_append]
    exact nodup_snoc _ _ hwf.keysNodup hOidKey
  · rw [horders, hdates, List.map_append, hwf.dateKeys]
    rfl
  · intro k
    rw [save_idxSet_type]
    exact index_block_nodup _ _ _ (hwf.typeNodup k) (hTfresh k)
  · intro k
    rw [save_idxSet_type, hdates]
    exact index_block_sublist _ _ _ _ (hwf.typeSub k) (hTfresh k)
  · intro k id
    rw [save_idxSet_type, horders]
    exact index_block_mem s.orders order.orderId order (fun o' => o'.orderType = k)
      _ _ hfresh (hwf.typeMem k) (by simp) id
  · intro k
    rw [save_idxSet_symbol]
    exact index_block_nodup _ _ _ (hwf.symNodup k) (hSfresh k)
  · intro k
    rw [save_idxSet_symbol, hdates]
    exact index_block_sublist _ _ _ _ (hwf.symSub k) (hSfresh k)
  · intro k id
    rw [save_idxSet_symbol, horders]
    exact index_block_mem s.orders order.orderId order
      (fun o' => ∃ l ∈ o'.assetOrders, l.symbol = k)
      _ _ hfresh (hwf.symMem k) (by simp) id
  · intro k
    rw [save_idxSet_assetType]
    exact index_block_nodup _ _ _ (hwf.atyNodup k) (hAfresh k)
  · intro k
    rw [save_idxSet_assetType, hdates]
    exact index_block_sublist _ _ _ _ (hwf.atySub k) (hAfresh k)
  · intro k id
    rw [save_idxSet_assetType, horders]
    exact index_block_mem s.orders order.orderId order
      (fun o' => ∃ l ∈ o'.assetOrders, l.type? = some k)
      _ _ hfresh (hwf.atyMem k) (by simp) id
  · intro c hc
    cases hc

theorem wf_getStats (now : Nat) (s : RepoState) (hwf : WF s) :
    WF (getStats now s).2 := by
  have hcases : (getStats now s).2 = s ∨
      (getStats now s).2 =
        { s with statsCache := some ⟨computeStats s, now, statsCacheTtl⟩ } := by
    unfold getStats
    cases hsc : s.statsCache with
    | none => exact Or.inr rfl
    | some c =>
      dsimp only
      by_cases h : now - c.timestamp < c.ttl
      · rw [if_pos h]
        exact Or.inl rfl
      · rw [if_neg h]
        exact Or.inr rfl
  rcases hcases with h | h
  · rwa [h]
  · rw [h]
    refine ⟨hwf.keysNodup, hwf.dateKeys, hwf.typeNodup, hwf.typeSub, hwf.typeMem,
      hwf.symNodup, hwf.symSub, hwf.symMem, hwf.atyNodup, hwf.atySub, hwf.atyMem, ?_⟩
    intro c hc
    have hc2 : (⟨computeStats s, now, statsCacheTtl⟩ : StatsCache) = c :=
      Option.some.inj hc
    rw [← hc2]
    rfl

theorem reachable_wf : ∀ {s : RepoState}, Reachable s → WF s := by
  intro s h
  induction h with
  | init => exact wf_initState
  | save order s' _ hfresh ih => exact wf_save order s' ih hfresh
  | stats now s' _ ih => exact wf_getStats now s' ih
  | reset s' _ _ => exact wf_initState

/-- Claim C7: in every reachable store state the secondary indexes are
exactly the derived views of the primary map — an id lies in the side
index set for key `k` iff the primary map holds an order with that id and
side `k`, in the symbol (resp. asset-class) set for `k` iff that order
has an asset line with symbol (resp. asset class) `k` — and the
insertion-ordered id list is exactly the primary map's keys. -/
theorem index_derived_views (s : RepoState) (hreach : Reachable s) :
    (∀ (k : Side) (id : Nat), id ∈ idxSet s.ordersByType k ↔
      ∃ o, alGet s.orders id = some o ∧ o.orderType = k) ∧
    (∀ (k : String) (id : Nat), id ∈ idxSet s.ordersBySymbol k ↔
      ∃ o, alGet s.orders id = some o ∧ ∃ l ∈ o.assetOrders, l.symbol = k) ∧
    (∀ (k : String) (id : Nat), id ∈ idxSet s.ordersByAssetType k ↔
      ∃ o, alGet s.orders id = some o ∧ ∃ l ∈ o.assetOrders, l.type? = some k) ∧
    s.ordersByDate = s.orders.map (fun e => e.1) := by
  have hwf := reachable_wf hreach
  exact ⟨hwf.typeMem, hwf.symMem, hwf.atyMem, hwf.dateKeys⟩

/-- A simple concrete order for building witness states. -/
def mkOrder (i : Nat) : StoredOrder :=
  ⟨i, Side.BUY, 100, [⟨"AAPL", some "stock", 100, 100, 100, 1, 100⟩], i⟩

/-- The state after saving `mkOrder 0, ..., mkOrder (n-1)` in order. -/
def mkStateN (n : Nat) : RepoState :=
  (List.range n).foldl (fun s i => save (mkOrder i) s) initState

theorem mkStateN_succ (n : Nat) :
    mkStateN (n + 1) = save (mkOrder n) (mkStateN n) := by
  rw [mkStateN, List.range_succ, List.foldl_append]
  rfl

theorem mkStateN_keys :
    ∀ n, (mkStateN n).orders.map (fun e => e.1) = List.range n := by
  intro n
  induction n with
  | zero => rfl
  | succ m ih =>
    rw [mkStateN_succ]
    have hfresh : alGet (mkStateN m).orders (mkOrder m).orderId = none := by
      rw [alGet_eq_none_iff, ih]
      simp [mkOrder]
    show (alSet (mkStateN m).orders (mkOrder m).orderId (mkOrder m)).map _ = _
    rw [alSet_of_absent _ _ _ hfresh, List.map_append, ih, List.range_succ]
    rfl

theorem mkStateN_fresh (n : Nat) : alGet (mkStateN n).orders n = none := by
  rw [alGet_eq_none_iff, mkStateN_keys]
  simp

theorem reachable_mkStateN : ∀ n, Reachable (mkStateN n)
  | 0 => Reachable.init
  | n + 1 => by
      rw [mkStateN_succ]
      exact Reachable.save (mkOrder n) (mkStateN n) (reachable_mkStateN n)
        (mkStateN_fresh n)

theorem mkStateN_length (n : Nat) : (mkStateN n).orders.length = n := by
  have h := congrArg List.length (mkStateN_keys n)
  simpa using h

/-- One-order state used to witness the derived-view theorem. -/
def wit7State : RepoState := save (mkOrder 0) initState

theorem index_derived_views_witness :
    (0 ∈ idxSet wit7State.ordersByType Side.BUY ↔
      ∃ o, alGet wit7State.orders 0 = some o ∧ o.orderType = Side.BUY) ∧
    wit7State.ordersByDate = wit7State.orders.map (fun e => e.1) :=
  ⟨(index_derived_views wit7State
      (Reachable.save (mkOrder 0) initState Reachable.init rfl)).1 Side.BUY 0,
   (index_derived_views wit7State
      (Reachable.save (mkOrder 0) initState Reachable.init rfl)).2.2.2⟩

/-- Claim C8: in every reachable state, a non-null statistics cache holds
exactly the statistics of the current primary map and indexes — both
insert and reset null the cache, so `getStats` always returns the
statistics of the current state regardless of the TTL. -/
theorem stats_cache_coherent (s : RepoState) (now : Nat) (hreach : Reachable s) :
    (getStats now s).1 = computeStats s ∧
      ∀ c, s.statsCache = some c → c.data = computeStats s := by
  have hwf := reachable_wf hreach
  refine ⟨?_, hwf.cacheOk⟩
  unfold getStats
  cases hsc : s.statsCache with
  | none => rfl
  | some c =>
    dsimp only
    by_cases h : now - c.timestamp < c.ttl
    · rw [if_pos h]
      exact hwf.cacheOk c hsc
    · rw [if_neg h]

theorem stats_cache_coherent_witness :
    (getStats 0 (mkStateN 2)).1 = computeStats (mkStateN 2) ∧
      ∀ c, (mkStateN 2).statsCache = some c →
        c.data = computeStats (mkStateN 2) :=
  stats_cache_coherent (mkStateN 2) 0 (reachable_mkStateN 2)

theorem sortInsert_perm {α : Type} (le : α → α → Bool) (a : α) :
    ∀ l : List α, (sortInsert le a l).Perm (a :: l)
  | [] => List.Perm.refl _
  | b :: bs => by
      rw [sortInsert]
      by_cases h : le a b = true
      · rw [if_pos h]
      · rw [if_neg h]
        exact (List.Perm.cons b (sortInsert_perm le a bs)).trans
          (List.Perm.swap a b bs)

theorem stableSort_perm {α : Type} (le : α → α → Bool) :
    ∀ l : List α, (stableSort le l).Perm l
  | [] => List.Perm.refl _
  | a :: as =>
      (sortInsert_perm le a (stableSort le as)).trans
        (List.Perm.cons a (stableSort_perm le as))

theorem stableSort_length {α : Type} (le : α → α → Bool) (l : List α) :
    (stableSort le l).length = l.length :=
  (stableSort_perm le l).length_eq

theorem perm_all_eq {α : Type} (p : α → Bool) :
    ∀ {l1 l2 : List α}, l1.Perm l2 → l1.all p = l2.all p := by
  intro l1 l2 h
  induction h with
  | nil => rfl
  | cons a _ ih => simp [List.all_cons, ih]
  | swap a b l =>
    rcases hpa : p a <;> rcases hpb : p b <;> simp [List.all_cons, hpa, hpb]
  | trans _ _ ih1 ih2 => exact ih1.trans ih2

theorem filter_mem_of_sublist :
    ∀ {t base : List Nat}, t.Sublist base → base.Nodup →
      base.filter (fun id => decide (id ∈ t)) = t := by
  intro t base h
  induction h with
  | slnil => intro _; rfl
  | cons b hsub ih =>
    intro hnd
    rw [List.nodup_cons] at hnd
    have hbt : b ∉ _ := fun hb => hnd.1 (hsub.subset hb)
    rw [List.filter_cons, if_neg (by simpa using hbt)]
    exact ih hnd.2
  | cons₂ b hsub ih =>
    intro hnd
    rw [List.nodup_cons] at hnd
    rw [List.filter_cons, if_pos (by simp)]
    congr 1
    rw [List.filter_congr (fun x hx => ?_)]
    · exact ih hnd.2
    · have hxb : x ≠ b := fun hxb => hnd.1 (hxb ▸ hx)
      simp [List.mem_cons, hxb]

theorem foldl_filter_all :
    ∀ (rest : List (List Nat)) (s0 : List Nat),
      rest.foldl (fun result s => result.filter (fun id => decide (id ∈ s))) s0 =
        s0.filter (fun id => rest.all (fun s => decide (id ∈ s)))
  | [], s0 => by simp
  | t :: ts, s0 => by
      rw [List.foldl_cons, foldl_filter_all ts, List.filter_filter]
      refine List.filter_congr (fun a _ => ?_)
      rw [List.all_cons, Bool.and_comm]

theorem intersectSets_spec (sets : List (List Nat)) (base : List Nat)
    (hprops : ∀ t ∈ sets, t.Sublist base ∧ t.Nodup)
    (hbase : base.Nodup) :
    sets ≠ [] →
    intersectSets sets = base.filter (fun id => sets.all (fun t => decide (id ∈ t))) := by
  match sets with
  | [] => exact fun h => absurd rfl h
  | [s] =>
    intro _
    have hs := hprops s (by simp)
    have h1 : base.filter (fun id => [s].all (fun t => decide (id ∈ t))) =
        base.filter (fun id => decide (id ∈ s)) :=
      List.filter_congr (fun a _ => by simp)
    rw [h1, filter_mem_of_sublist hs.1 hbase]
    rfl
  | s1 :: s2 :: rest =>
    intro _
    have hperm := stableSort_perm (fun a b => decide (a.length ≤ b.length))
      (s1 :: s2 :: rest)
    have hlen : (stableSort (fun a b => decide (a.length ≤ b.length))
        (s1 :: s2 :: rest)).length = rest.length + 2 := by
      rw [stableSort_length]
      simp
    cases hs : stableSort (fun a b => decide (a.length ≤ b.length))
        (s1 :: s2 :: rest) with
    | nil => rw [hs] at hlen; simp at hlen
    | cons s0 srest =>
      have heq : intersectSets (s1 :: s2 :: rest) =
          srest.foldl (fun result s => result.filter (fun id => decide (id ∈ s))) s0 := by
        rw [show intersectSets (s1 :: s2 :: rest) =
          (match stableSort (fun a b => decide (a.length ≤ b.length)) (s1 :: s2 :: rest) with
           | [] => []
           | s0 :: rest' =>
             rest'.foldl (fun result s => result.filter (fun id => decide (id ∈ s))) s0)
          from rfl, hs]
      rw [heq, foldl_filter_all]
      have hs0mem : s0 ∈ s1 :: s2 :: rest := hperm.subset (hs ▸ List.mem_cons_self s0 srest)
      have hs0 := hprops s0 hs0mem
      conv_lhs => rw [← filter_mem_of_sublist hs0.1 hbase]
      rw [List.filter_filter]
      refine List.filter_congr (fun a _ => ?_)
      rw [← perm_all_eq (fun t => decide (a ∈ t)) hperm, hs, List.all_cons, Bool.and_comm]

theorem sortInsert_map {α β : Type} (f : α → β) (leA : α → α → Bool)
    (leB : β → β → Bool) (a : α) :
    ∀ (l : List α), (∀ b ∈ l, leB (f a) (f b) = leA a b) →
      sortInsert leB (f a) (l.map f) = (sortInsert leA a l).map f
  | [], _ => rfl
  | b :: bs, h => by
      simp only [List.map_cons, sortInsert]
      rw [h b (List.mem_cons_self b bs)]
      by_cases hab : leA a b = true
      · rw [if_pos hab, if_pos hab]
        simp
      · rw [if_neg hab, if_neg hab,
          sortInsert_map f leA leB a bs (fun x hx => h x (List.mem_cons_of_mem b hx))]
        simp

theorem stableSort_map {α β : Type} (f : α → β) (leA : α → α → Bool)
    (leB : β → β → Bool) :
    ∀ (l : List α), (∀ a ∈ l, ∀ b ∈ l, leB (f a) (f b) = leA a b) →
      stableSort leB (l.map f) = (stableSort leA l).map f
  | [], _ => rfl
  | a :: as, h => by
      simp only [List.map_cons, stableSort]
      rw [stableSort_map f leA leB as
        (fun x hx y hy => h x (List.mem_cons_of_mem a hx) y (List.mem_cons_of_mem a hy))]
      exact sortInsert_map f leA leB a (stableSort leA as)
        (fun b hb => h a (List.mem_cons_self a as) b
          (List.mem_cons_of_mem a ((stableSort_perm leA as).subset hb)))

/-- The categorical part of the query filter, from the claim: side,
symbol, and asset-class tests against an order. -/
def catFilterB (params : QueryParams) (o : StoredOrder) : Bool :=
  (match params.orderType with
   | some ot => decide (o.orderType = ot)
   | none => true) &&
  (match params.symbol with
   | some sym => o.assetOrders.any (fun l => decide (l.symbol = sym))
   | none => true) &&
  (match params.assetType with
   | some aty => o.assetOrders.any (fun l => decide (l.type? = some aty))
   | none => true)

/-- The inclusive date-range part of the query filter. -/
def dateFilterB (params : QueryParams) (o : StoredOrder) : Bool :=
  (match params.fromDate with
   | some fd => !decide (o.createdAt < fd)
   | none => true) &&
  (match params.toDate with
   | some td => !decide (td < o.createdAt)
   | none => true)

/-- Specification-side matching predicate from the claim: an order
matches a query when it passes every supplied filter. -/
def matchesFilters (params : QueryParams) (o : StoredOrder) : Bool :=
  catFilterB params o && dateFilterB params o

/-- Specification-side matching orders: the primary map's orders that
pass every supplied filter, in insertion order. -/
def matchingOrders (s : RepoState) (params : QueryParams) : List StoredOrder :=
  (s.orders.map (fun e => e.2)).filter (matchesFilters params)

/-- Specification-side descending creation-date sort (stable). -/
def sortOrdersByDateDesc (orders : List StoredOrder) : List StoredOrder :=
  stableSort (fun a b => decide (b.createdAt ≤ a.createdAt)) orders

/-- Whether some supplied categorical filter value is absent from its
secondary index (the early-empty-result condition of `findAll`). -/
def filterValueMissing (s : RepoState) (params : QueryParams) : Bool :=
  (match params.orderType with
   | some ot => (alGet s.ordersByType ot).isNone
   | none => false) ||
  (match params.symbol with
   | some sym => (alGet s.ordersBySymbol sym).isNone
   | none => false) ||
  (match params.assetType with
   | some aty => (alGet s.ordersByAssetType aty).isNone
   | none => false)

/-- Lookup-then-test used to state what `findAll` computes on ids. -/
def lookupMatches (m : List (Nat × StoredOrder)) (p : StoredOrder → Bool)
    (id : Nat) : Bool :=
  match alGet m id with
  | some o => p o
  | none => false

theorem idxSet_eq_of_alGet {κ : Type} [DecidableEq κ]
    {m : List (κ × List Nat)} {k : κ} {ids : List Nat}
    (h : alGet m k = some ids) : idxSet m k = ids := by
  rw [idxSet, h]
  rfl

theorem decide_eq_bool_of_iff {p : Prop} [Decidable p] {b : Bool}
    (h : p ↔ b = true) : decide p = b := by
  cases hb : b
  · rw [hb] at h
    simp only [Bool.false_eq_true, iff_false] at h
    simp [h]
  · rw [hb] at h
    simp only [iff_true] at h
    simp [h]

theorem mem_keys_alGet (m : List (Nat × StoredOrder))
    (hnd : (m.map (fun e => e.1)).Nodup) (id : Nat)
    (h : id ∈ m.map (fun e => e.1)) : ∃ o, alGet m id = some o := by
  obtain ⟨e, he, hfst⟩ := List.mem_map.1 h
  refine ⟨e.2, ?_⟩
  rw [← hfst]
  exact alGet_mem m e.1 e.2 (by simpa using he) hnd

theorem filter_map_snd (l : List (Nat × StoredOrder)) (p : StoredOrder → Bool) :
    (l.map (fun e => e.2)).filter p = (l.filter (fun e => p e.2)).map (fun e => e.2) := by
  induction l with
  | nil => rfl
  | cons e t ih =>
    by_cases h : p e.2 = true
    · simp [List.filter_cons, h, ih]
    · simp [List.filter_cons, h, ih]

theorem keys_filter_lookup :
    ∀ (m : List (Nat × StoredOrder)) (p : StoredOrder → Bool),
      (m.map (fun e => e.1)).Nodup →
      (m.map (fun e => e.1)).filter (lookupMatches m p) =
        (m.filter (fun e => p e.2)).map (fun e => e.1)
  | [], _, _ => rfl
  | e :: t, p, hnd => by
      obtain ⟨k, v⟩ := e
      simp only [List.map_cons, List.nodup_cons] at hnd
      have hknotin : k ∉ t.map (fun e => e.1) := hnd.1
      have hhead : lookupMatches ((k, v) :: t) p k = p v := by
        rw [lookupMatches, alGet_cons, if_pos rfl]
      have htail : (t.map (fun e => e.1)).filter (lookupMatches ((k, v) :: t) p) =
          (t.map (fun e => e.1)).filter (lookupMatches t p) := by
        refine List.filter_congr (fun id hid => ?_)
        have hne : k ≠ id := fun hkid => hknotin (hkid ▸ hid)
        rw [lookupMatches, lookupMatches, alGet_cons, if_neg hne]
      rw [List.map_cons, List.filter_cons, hhead, htail,
        keys_filter_lookup t p hnd.2, List.filter_cons]
      by_cases hp : p v = true
      · rw [if_pos hp, if_pos hp, List.map_cons]
      · rw [if_neg hp, if_neg hp]

theorem batchGet_map_fst (s : RepoState) :
    ∀ (l : List (Nat × StoredOrder)), (∀ e ∈ l, alGet s.orders e.1 = some e.2) →
      batchGetOrders s (l.map (fun e => e.1)) = l.map (fun e => e.2)
  | [], _ => rfl
  | e :: t, h => by
      rw [List.map_cons, List.map_cons, batchGetOrders, List.filterMap_cons,
        h e (List.mem_cons_self e t)]
      dsimp only
      congr 1
      exact batchGet_map_fst s t (fun x hx => h x (List.mem_cons_of_mem e hx))

theorem dateInRange_eq (params : QueryParams) (o : StoredOrder) :
    dateInRange o.createdAt params.fromDate params.toDate = dateFilterB params o := rfl

theorem findAll_core (s : RepoState) (params : QueryParams) (hwf : WF s)
    (filters : List (List Nat))
    (hcollect : collectFilters s params = some filters)
    (hsets : ∀ t ∈ filters, t.Sublist s.ordersByDate ∧ t.Nodup)
    (hall : ∀ id o, alGet s.orders id = some o →
      filters.all (fun t => decide (id ∈ t)) = catFilterB params o) :
    (findAll params s).total = (matchingOrders s params).length ∧
      (findAll params s).orders =
        ((sortOrdersByDateDesc (matchingOrders s params)).drop
          (jsOrNat params.offset 0)).take (jsOrNat params.limit 50) ∧
      (findAll params s).hasMore =
        decide (jsOrNat params.offset 0 + jsOrNat params.limit 50 <
          (matchingOrders s params).length) := by
  have hbasend : s.ordersByDate.Nodup := by
    rw [hwf.dateKeys]
    exact hwf.keysNodup
  have hcand : (if filters.length > 0 then intersectSets filters else s.ordersByDate) =
      s.ordersByDate.filter (fun id => filters.all (fun t => decide (id ∈ t))) := by
    cases filters with
    | nil =>
      rw [if_neg (by simp)]
      exact (List.filter_true _).symm
    | cons f1 frest =>
      rw [if_pos (by simp)]
      exact intersectSets_spec (f1 :: frest) s.ordersByDate hsets hbasend (by simp)
  have hdate : (if params.fromDate.isSome || params.toDate.isSome then
        filterByDateRange s
          (if filters.length > 0 then intersectSets filters else s.ordersByDate)
          params.fromDate params.toDate
      else if filters.length > 0 then intersectSets filters else s.ordersByDate) =
      s.ordersByDate.filter (lookupMatches s.orders (matchesFilters params)) := by
    rw [hcand]
    by_cases hd : (params.fromDate.isSome || params.toDate.isSome) = true
    · rw [if_pos hd, filterByDateRange]
      have hnotboth : ¬ (params.fromDate = none ∧ params.toDate = none) := by
        rintro ⟨h1, h2⟩
        rw [h1, h2] at hd
        simp at hd
      rw [if_neg hnotboth, List.filter_filter]
      refine List.filter_congr (fun id hid => ?_)
      obtain ⟨o, ho⟩ := mem_keys_alGet s.orders hwf.keysNodup id
        (by rwa [← hwf.dateKeys])
      simp only [ho, lookupMatches, hall id o ho, dateInRange_eq params o]
      rcases hc : catFilterB params o <;> rcases hdt : dateFilterB params o <;>
        simp [matchesFilters, hc, hdt]
    · rw [if_neg hd]
      have h1 : params.fromDate = none := by
        rcases hfrom : params.fromDate with _ | fd
        · rfl
        · rw [hfrom] at hd
          simp at hd
      have h2 : params.toDate = none := by
        rcases hto : params.toDate with _ | td
        · rfl
        · rw [hto] at hd
          simp at hd
      refine List.filter_congr (fun id hid => ?_)
      obtain ⟨o, ho⟩ := mem_keys_alGet s.orders hwf.keysNodup id
        (by rwa [← hwf.dateKeys])
      simp only [lookupMatches, ho, hall id o ho, matchesFilters, dateFilterB, h1, h2,
        Bool.and_true]
  have hIDs : s.ordersByDate.filter (lookupMatches s.orders (matchesFilters params)) =
      (s.orders.filter (fun e => matchesFilters params e.2)).map (fun e => e.1) := by
    rw [hwf.dateKeys]
    exact keys_filter_lookup s.orders (matchesFilters params) hwf.keysNodup
  have hMFsub : ∀ e ∈ s.orders.filter (fun e => matchesFilters params e.2),
      alGet s.orders e.1 = some e.2 := by
    intro e he
    have hm : e ∈ s.orders := List.mem_of_mem_filter he
    exact alGet_mem s.orders e.1 e.2 hm hwf.keysNodup
  have hsortIds : sortByDate s
      ((s.orders.filter (fun e => matchesFilters params e.2)).map (fun e => e.1)) =
      (stableSort (fun a b => decide (b.2.createdAt ≤ a.2.createdAt))
        (s.orders.filter (fun e => matchesFilters params e.2))).map (fun e => e.1) := by
    rw [sortByDate]
    refine stableSort_map (α := Nat × StoredOrder) (β := Nat) (fun e => e.1)
      (fun a b => decide (b.2.createdAt ≤ a.2.createdAt))
      (fun a b => decide (dateCmpDesc s a b ≤ 0)) _ (fun a ha b hb => ?_)
    have hcmp : dateCmpDesc s a.1 b.1 =
        (b.2.createdAt : Int) - (a.2.createdAt : Int) := by
      rw [dateCmpDesc, hMFsub a ha, hMFsub b hb]
    show decide (dateCmpDesc s a.1 b.1 ≤ 0) = decide (b.2.createdAt ≤ a.2.createdAt)
    rw [hcmp]
    exact decide_eq_decide.2 (by omega)
  have hsortOrders : sortOrdersByDateDesc
      ((s.orders.filter (fun e => matchesFilters params e.2)).map (fun e => e.2)) =
      (stableSort (fun a b => decide (b.2.createdAt ≤ a.2.createdAt))
        (s.orders.filter (fun e => matchesFilters params e.2))).map (fun e => e.2) := by
    rw [sortOrdersByDateDesc]
    exact stableSort_map (α := Nat × StoredOrder) (β := StoredOrder) (fun e => e.2)
      (fun a b => decide (b.2.createdAt ≤ a.2.createdAt))
      (fun a b => decide (b.createdAt ≤ a.createdAt)) _ (fun a _ b _ => rfl)
  have hmatching : matchingOrders s params =
      (s.orders.filter (fun e => matchesFilters params e.2)).map (fun e => e.2) := by
    rw [matchingOrders, filter_map_snd]
  have hSPmem : ∀ e ∈ stableSort (fun a b => decide (b.2.createdAt ≤ a.2.createdAt))
      (s.orders.filter (fun e => matchesFilters params e.2)),
      alGet s.orders e.1 = some e.2 := fun e he =>
    hMFsub e ((stableSort_perm _ _).subset he)
  have hfind : findAll params s =
      ⟨batchGetOrders s
        (((sortByDate s (s.ordersByDate.filter
            (lookupMatches s.orders (matchesFilters params)))).drop
          (jsOrNat params.offset 0)).take (jsOrNat params.limit 50)),
        (sortByDate s (s.ordersByDate.filter
          (lookupMatches s.orders (matchesFilters params)))).length,
        jsOrNat params.limit 50, jsOrNat params.offset 0,
        decide (jsOrNat params.offset 0 + jsOrNat params.limit 50 <
          (sortByDate s (s.ordersByDate.filter
            (lookupMatches s.orders (matchesFilters params)))).length)⟩ := by
    simp only [findAll, hcollect]
    rw [hdate]
  have hlen : (sortByDate s (s.ordersByDate.filter
      (lookupMatches s.orders (matchesFilters params)))).length =
      (matchingOrders s params).length := by
    rw [hIDs, hsortIds, List.length_map, hmatching, List.length_map]
    exact (stableSort_perm _ _).length_eq
  refine ⟨?_, ?_, ?_⟩
  · rw [hfind]
    exact hlen
  · rw [hfind]
    show batchGetOrders s _ = _
    rw [hIDs, hsortIds, ← List.map_drop, ← List.map_take,
      batchGet_map_fst s _ (fun e he => hSPmem e
        (List.drop_subset _ _ (List.take_subset _ _ he)))]
    rw [hmatching, hsortOrders, ← List.map_drop, ← List.map_take]
  · rw [hfind]
    show decide _ = _
    rw [hlen]

theorem mem_type_index {s : RepoState} (hwf : WF s) (ot : Side) (tids : List Nat)
    (halT : alGet s.ordersByType ot = some tids) (id : Nat) (o : StoredOrder)
    (ho : alGet s.orders id = some o) :
    decide (id ∈ tids) = decide (o.orderType = ot) := by
  refine decide_eq_decide.2 ?_
  rw [← idxSet_eq_of_alGet halT, hwf.typeMem ot id]
  constructor
  · rintro ⟨o', ho', hp⟩
    rw [ho] at ho'
    rwa [← Option.some.inj ho'] at hp
  · intro hp
    exact ⟨o, ho, hp⟩

theorem mem_symbol_index {s : RepoState} (hwf : WF s) (sym : String) (sids : List Nat)
    (halS : alGet s.ordersBySymbol sym = some sids) (id : Nat) (o : StoredOrder)
    (ho : alGet s.orders id = some o) :
    decide (id ∈ sids) = o.assetOrders.any (fun l => decide (l.symbol = sym)) := by
  apply decide_eq_bool_of_iff
  rw [← idxSet_eq_of_alGet halS, hwf.symMem sym id]
  constructor
  · rintro ⟨o', ho', l, hl, hsym⟩
    rw [ho] at ho'
    obtain rfl := Option.some.inj ho'
    simp only [List.any_eq_true, decide_eq_true_eq]
    exact ⟨l, hl, hsym⟩
  · intro hany
    simp only [List.any_eq_true, decide_eq_true_eq] at hany
    obtain ⟨l, hl, hsym⟩ := hany
    exact ⟨o, ho, l, hl, hsym⟩

theorem mem_atype_index {s : RepoState} (hwf : WF s) (aty : String) (aids : List Nat)
    (halA : alGet s.ordersByAssetType aty = some aids) (id : Nat) (o : StoredOrder)
    (ho : alGet s.orders id = some o) :
    decide (id ∈ aids) = o.assetOrders.any (fun l => decide (l.type? = some aty)) := by
  apply decide_eq_bool_of_iff
  rw [← idxSet_eq_of_alGet halA, hwf.atyMem aty id]
  constructor
  · rintro ⟨o', ho', l, hl, hty⟩
    rw [ho] at ho'
    obtain rfl := Option.some.inj ho'
    simp only [List.any_eq_true, decide_eq_true_eq]
    exact ⟨l, hl, hty⟩
  · intro hany
    simp only [List.any_eq_true, decide_eq_true_eq] at hany
    obtain ⟨l, hl, hty⟩ := hany
    exact ⟨o, ho, l, hl, hty⟩

theorem type_index_props {s : RepoState} (hwf : WF s) (ot : Side) (tids : List Nat)
    (halT : alGet s.ordersByType ot = some tids) :
    tids.Sublist s.ordersByDate ∧ tids.Nodup := by
  have h1 := hwf.typeSub ot
  have h2 := hwf.typeNodup ot
  rw [idxSet_eq_of_alGet halT] at h1 h2
  exact ⟨h1, h2⟩

theorem symbol_index_props {s : RepoState} (hwf : WF s) (sym : String) (sids : List Nat)
    (halS : alGet s.ordersBySymbol sym = some sids) :
    sids.Sublist s.ordersByDate ∧ sids.Nodup := by
  have h1 := hwf.symSub sym
  have h2 := hwf.symNodup sym
  rw [idxSet_eq_of_alGet halS] at h1 h2
  exact ⟨h1, h2⟩

theorem atype_index_props {s : RepoState} (hwf : WF s) (aty : String) (aids : List Nat)
    (halA : alGet s.ordersByAssetType aty = some aids) :
    aids.Sublist s.ordersByDate ∧ aids.Nodup := by
  have h1 := hwf.atySub aty
  have h2 := hwf.atyNodup aty
  rw [idxSet_eq_of_alGet halA] at h1 h2
  exact ⟨h1, h2⟩

/-- Claim C6: for every reachable store state and query — if a supplied
categorical filter value is absent from its secondary index the result
is an empty page with total 0 and hasMore false; otherwise total is the
number of orders matching all supplied filters before pagination, the
page is the slice [offset, offset+limit) of the matching orders sorted
by createdAt descending (sorted after filtering), and hasMore is
offset + limit < total.  In particular, 150 stored orders queried with
limit 10 and offset 140 give 10 results and hasMore = false. -/
theorem query_pagination_spec (s : RepoState) (params : QueryParams)
    (hreach : Reachable s) :
    (filterValueMissing s params = true →
      findAll params s = emptyResult params ∧
        (findAll params s).orders = [] ∧ (findAll params s).total = 0 ∧
        (findAll params s).hasMore = false) ∧
    (filterValueMissing s params = false →
      (findAll params s).total = (matchingOrders s params).length ∧
        (findAll params s).orders =
          ((sortOrdersByDateDesc (matchingOrders s params)).drop
            (jsOrNat params.offset 0)).take (jsOrNat params.limit 50) ∧
        (findAll params s).hasMore =
          decide (jsOrNat params.offset 0 + jsOrNat params.limit 50 <
            (matchingOrders s params).length)) ∧
    (s.orders.length = 150 → params = ⟨none, none, none, none, none, some 10, some 140⟩ →
      (findAll params s).orders.length = 10 ∧ (findAll params s).hasMore = false) := by
  have hwf := reachable_wf hreach
  obtain ⟨pot, psym, paty, pfrom, pto, plim, poff⟩ := params
  have hempty : filterValueMissing s ⟨pot, psym, paty, pfrom, pto, plim, poff⟩ = true →
      findAll ⟨pot, psym, paty, pfrom, pto, plim, poff⟩ s =
        emptyResult ⟨pot, psym, paty, pfrom, pto, plim, poff⟩ := by
    intro hmiss
    cases pot with
    | some ot =>
      rcases hT : alGet s.ordersByType ot with _ | tids
      · simp [findAll, collectFilters, hT]
      · cases psym with
        | some sym =>
          rcases hS : alGet s.ordersBySymbol sym with _ | sids
          · simp [findAll, collectFilters, hT, hS]
          · cases paty with
            | some aty =>
              rcases hA : alGet s.ordersByAssetType aty with _ | aids
              · simp [findAll, collectFilters, hT, hS, hA]
              · simp [filterValueMissing, hT, hS, hA] at hmiss
            | none => simp [filterValueMissing, hT, hS] at hmiss
        | none =>
          cases paty with
          | some aty =>
            rcases hA : alGet s.ordersByAssetType aty with _ | aids
            · simp [findAll, collectFilters, hT, hA]
            · simp [filterValueMissing, hT, hA] at hmiss
          | none => simp [filterValueMissing, hT] at hmiss
    | none =>
      cases psym with
      | some sym =>
        rcases hS : alGet s.ordersBySymbol sym with _ | sids
        · simp [findAll, collectFilters, hS]
        · cases paty with
          | some aty =>
            rcases hA : alGet s.ordersByAssetType aty with _ | aids
            · simp [findAll, collectFilters, hS, hA]
            · simp [filterValueMissing, hS, hA] at hmiss
          | none => simp [filterValueMissing, hS] at hmiss
      | none =>
        cases paty with
        | some aty =>
          rcases hA : alGet s.ordersByAssetType aty with _ | aids
          · simp [findAll, collectFilters, hA]
          · simp [filterValueMissing, hA] at hmiss
        | none => simp [filterValueMissing] at hmiss
  have hcore : filterValueMissing s ⟨pot, psym, paty, pfrom, pto, plim, poff⟩ = false →
      (findAll ⟨pot, psym, paty, pfrom, pto, plim, poff⟩ s).total =
          (matchingOrders s ⟨pot, psym, paty, pfrom, pto, plim, poff⟩).length ∧
        (findAll ⟨pot, psym, paty, pfrom, pto, plim, poff⟩ s).orders =
          ((sortOrdersByDateDesc
            (matchingOrders s ⟨pot, psym, paty, pfrom, pto, plim, poff⟩)).drop
            (jsOrNat poff 0)).take (jsOrNat plim 50) ∧
        (findAll ⟨pot, psym, paty, pfrom, pto, plim, poff⟩ s).hasMore =
          decide (jsOrNat poff 0 + jsOrNat plim 50 <
            (matchingOrders s ⟨pot, psym, paty, pfrom, pto, plim, poff⟩).length) := by
    intro hmiss
    cases pot with
    | some ot =>
      rcases hT : alGet s.ordersByType ot with _ | tids
      · simp [filterValueMissing, hT] at hmiss
      · cases psym with
        | some sym =>
          rcases hS : alGet s.ordersBySymbol sym with _ | sids
          · simp [filterValueMissing, hT, hS] at hmiss
          · cases paty with
            | some aty =>
              rcases hA : alGet s.ordersByAssetType aty with _ | aids
              · simp [filterValueMissing, hT, hS, hA] at hmiss
              · refine findAll_core s _ hwf [tids, sids, aids]
                  (by simp [collectFilters, hT, hS, hA]) ?_ ?_
                · intro t ht
                  simp only [List.mem_cons, List.mem_singleton, List.not_mem_nil,
                    or_false] at ht
                  rcases ht with rfl | rfl | rfl
                  · exact type_index_props hwf ot t hT
                  · exact symbol_index_props hwf sym t hS
                  · exact atype_index_props hwf aty t hA
                · intro id o ho
                  simp only [List.all_cons, List.all_nil, Bool.and_true]
                  rw [mem_type_index hwf ot tids hT id o ho,
                    mem_symbol_index hwf sym sids hS id o ho,
                    mem_atype_index hwf aty aids hA id o ho]
                  simp only [catFilterB, Bool.and_assoc]
            | none =>
              refine findAll_core s _ hwf [tids, sids]
                (by simp [collectFilters, hT, hS]) ?_ ?_
              · intro t ht
                simp only [List.mem_cons, List.mem_singleton, List.not_mem_nil,
                  or_false] at ht
                rcases ht with rfl | rfl
                · exact type_index_props hwf ot t hT
                · exact symbol_index_props hwf sym t hS
              · intro id o ho
                simp only [List.all_cons, List.all_nil, Bool.and_true]
                rw [mem_type_index hwf ot tids hT id o ho,
                  mem_symbol_index hwf sym sids hS id o ho]
                simp only [catFilterB, Bool.and_assoc, Bool.and_true]
        | none =>
          cases paty with
          | some aty =>
            rcases hA : alGet s.ordersByAssetType aty with _ | aids
            · simp [filterValueMissing, hT, hA] at hmiss
            · refine findAll_core s _ hwf [tids, aids]
                (by simp [collectFilters, hT, hA]) ?_ ?_
              · intro t ht
                simp only [List.mem_cons, List.mem_singleton, List.not_mem_nil,
                  or_false] at ht
                rcases ht with rfl | rfl
                · exact type_index_props hwf ot t hT
                · exact atype_index_props hwf aty t hA
              · intro id o ho
                simp only [List.all_cons, List.all_nil, Bool.and_true]
                rw [mem_type_index hwf ot tids hT id o ho,
                  mem_atype_index hwf aty aids hA id o ho]
                simp only [catFilterB, Bool.and_assoc, Bool.true_and, Bool.and_true]
          | none =>
            refine findAll_core s _ hwf [tids]
              (by simp [collectFilters, hT]) ?_ ?_
            · intro t ht
              simp only [List.mem_singleton] at ht
              subst ht
              exact type_index_props hwf ot t hT
            · intro id o ho
              simp only [List.all_cons, List.all_nil, Bool.and_true]
              rw [mem_type_index hwf ot tids hT id o ho]
              simp only [catFilterB, Bool.and_true]
    | none =>
      cases psym with
      | some sym =>
        rcases hS : alGet s.ordersBySymbol sym with _ | sids
        · simp [filterValueMissing, hS] at hmiss
        · cases paty with
          | some aty =>
            rcases hA : alGet s.ordersByAssetType aty with _ | aids
            · simp [filterValueMissing, hS, hA] at hmiss
            · refine findAll_core s _ hwf [sids, aids]
                (by simp [collectFilters, hS, hA]) ?_ ?_
              · intro t ht
                simp only [List.mem_cons, List.mem_singleton, List.not_mem_nil,
                  or_false] at ht
                rcases ht with rfl | rfl
                · exact symbol_index_props hwf sym t hS
                · exact atype_index_props hwf aty t hA
              · intro id o ho
                simp only [List.all_cons, List.all_nil, Bool.and_true]
                rw [mem_symbol_index hwf sym sids hS id o ho,
                  mem_atype_index hwf aty aids hA id o ho]
                simp only [catFilterB, Bool.and_assoc, Bool.true_and]
          | none =>
            refine findAll_core s _ hwf [sids]
              (by simp [collectFilters, hS]) ?_ ?_
            · intro t ht
              simp only [List.mem_singleton] at ht
              subst ht
              exact symbol_index_props hwf sym t hS
            · intro id o ho
              simp only [List.all_cons, List.all_nil, Bool.and_true]
              rw [mem_symbol_index hwf sym sids hS id o ho]
              simp only [catFilterB, Bool.true_and, Bool.and_true]
      | none =>
        cases paty with
        | some aty =>
          rcases hA : alGet s.ordersByAssetType aty with _ | aids
          · simp [filterValueMissing, hA] at hmiss
          · refine findAll_core s _ hwf [aids]
              (by simp [collectFilters, hA]) ?_ ?_
            · intro t ht
              simp only [List.mem_singleton] at ht
              subst ht
              exact atype_index_props hwf aty t hA
            · intro id o ho
              simp only [List.all_cons, List.all_nil, Bool.and_true]
              rw [mem_atype_index hwf aty aids hA id o ho]
              simp only [catFilterB, Bool.true_and]
        | none =>
          refine findAll_core s _ hwf []
            (by simp [collectFilters]) (by simp) ?_
          intro id o ho
          simp [catFilterB]
  refine ⟨fun hmiss => ⟨hempty hmiss, ?_, ?_, ?_⟩, hcore, ?_⟩
  · rw [hempty hmiss]
    rfl
  · rw [hempty hmiss]
    rfl
  · rw [hempty hmiss]
    rfl
  · intro h150 hpeq
    cases hpeq
    obtain ⟨htot, hord, hmore⟩ := hcore rfl
    have hmatchAll : matchingOrders s
        ⟨none, none, none, none, none, some 10, some 140⟩ =
        s.orders.map (fun e => e.2) := by
      rw [matchingOrders,
        show matchesFilters ⟨none, none, none, none, none, some 10, some 140⟩ =
          (fun _ => true) from rfl, List.filter_true]
    have hmlen : (matchingOrders s
        ⟨none, none, none, none, none, some 10, some 140⟩).length = 150 := by
      rw [hmatchAll, List.length_map, h150]
    constructor
    · rw [hord, List.length_take, List.length_drop, sortOrdersByDateDesc,
        stableSort_length, hmlen]
      rfl
    · rw [hmore, hmlen]
      rfl

theorem query_pagination_spec_witness :
    (mkStateN 150).orders.length = 150 ∧
      (findAll ⟨none, none, none, none, none, some 10, some 140⟩
        (mkStateN 150)).orders.length = 10 ∧
      (findAll ⟨none, none, none, none, none, some 10, some 140⟩
        (mkStateN 150)).hasMore = false := by
  have hlen : (mkStateN 150).orders.length = 150 := mkStateN_length 150
  have h := (query_pagination_spec (mkStateN 150)
    ⟨none, none, none, none, none, some 10, some 140⟩
    (reachable_mkStateN 150)).2.2 hlen rfl
  exact ⟨hlen, h.1, h.2⟩
